import Mathlib

/-!
# Verification of the powerstrings transformation engine

Shallow embedding of the transformation engine of the `powerstrings`
repository (`src/views/Transform.ts`, present in two revisions, and the
chain evaluator `outputValue` of the Transform view component).

JavaScript values flowing through the engine are either strings or
(arbitrarily nested) arrays of strings.  Out-of-range index selection via
lodash `pullAt` can additionally inject JavaScript `undefined` into an
array, so the value model carries an explicit `undef` leaf.

Host primitives used by the source (`parseInt`, `String.prototype.split`,
`Array.prototype.slice`, `Array.prototype.sort`, lodash `pullAt`,
`JSON.stringify` / `JSON.parse`, regexes compiled from the `%w%` wildcard
mini-language) are modelled explicitly below, faithful to ECMAScript
semantics on the value domain the engine exercises.
-/

/-- The `'string' | 'array'` type tags used by `PSTransformer.Target` and
`PSTransformer.Return`. -/
inductive PSTy where
  | string
  | array
deriving DecidableEq, Repr

/-- A JavaScript value processed by the engine: a string leaf, an array of
values, or `undefined` (which only enters arrays through out-of-range
lodash `pullAt` selection in `slice_array`). -/
inductive Value where
  | str (s : String)
  | arr (elems : List Value)
  | undef
deriving Repr

mutual

/-- Decidable equality on `Value` (hand-written because of the nested
`List Value` occurrence). -/
def Value.decEq : (a b : Value) → Decidable (a = b)
  | .str a, .str b =>
    match String.decEq a b with
    | isTrue h => isTrue (by rw [h])
    | isFalse h => isFalse (by intro hc; injection hc; contradiction)
  | .str _, .arr _ => isFalse (by intro hc; injection hc)
  | .str _, .undef => isFalse (by intro hc; injection hc)
  | .arr _, .str _ => isFalse (by intro hc; injection hc)
  | .arr as, .arr bs =>
    match Value.decEqList as bs with
    | isTrue h => isTrue (by rw [h])
    | isFalse h => isFalse (by intro hc; injection hc; contradiction)
  | .arr _, .undef => isFalse (by intro hc; injection hc)
  | .undef, .str _ => isFalse (by intro hc; injection hc)
  | .undef, .arr _ => isFalse (by intro hc; injection hc)
  | .undef, .undef => isTrue rfl

/-- Decidable equality on lists of `Value`. -/
def Value.decEqList : (as bs : List Value) → Decidable (as = bs)
  | [], [] => isTrue rfl
  | [], _ :: _ => isFalse (by intro hc; injection hc)
  | _ :: _, [] => isFalse (by intro hc; injection hc)
  | a :: as, b :: bs =>
    match Value.decEq a b, Value.decEqList as bs with
    | isTrue h1, isTrue h2 => isTrue (by rw [h1, h2])
    | isFalse h1, _ => isFalse (by intro hc; injection hc; contradiction)
    | _, isFalse h2 => isFalse (by intro hc; injection hc; contradiction)

end

instance : DecidableEq Value := Value.decEq

/-- JavaScript `StrWhiteSpaceChar`: white space and line terminators, as
trimmed by `parseInt` / `String.prototype.trim`. -/
def jsIsWhitespace (c : Char) : Bool :=
  c = ' ' || c = '\t' || c = '\n' || c = '\r' ||
  c.toNat = 0xB || c.toNat = 0xC || c.toNat = 0xA0 || c.toNat = 0x1680 ||
  (0x2000 ≤ c.toNat && c.toNat ≤ 0x200A) ||
  c.toNat = 0x2028 || c.toNat = 0x2029 || c.toNat = 0x202F ||
  c.toNat = 0x205F || c.toNat = 0x3000 || c.toNat = 0xFEFF

/-- Numeric value of a decimal digit list, most significant first. -/
def decDigitsToNat (ds : List Char) : Nat :=
  ds.foldl (fun acc c => acc * 10 + (c.toNat - 48)) 0

/-- JavaScript `parseInt(s, 10)`: skip leading white space, read an
optional sign, then the longest prefix of decimal digits; `none` models
`NaN` (no digits found).  Trailing garbage is ignored, exactly as in JS. -/
def jsParseInt (s : String) : Option Int :=
  let cs := s.data.dropWhile jsIsWhitespace
  let (neg, cs2) : Bool × List Char :=
    match cs with
    | '-' :: r => (true, r)
    | '+' :: r => (false, r)
    | r => (false, r)
  let digits := cs2.takeWhile Char.isDigit
  if digits.isEmpty then none
  else
    let n : Int := decDigitsToNat digits
    some (if neg then -n else n)

mutual

/-- JavaScript `ToString` on a `Value`: strings are themselves,
`undefined` prints as `"undefined"`, and arrays use
`Array.prototype.toString`, i.e. `join(",")` with `undefined` elements
rendered as the empty string. -/
def jsToString : Value → String
  | .str s => s
  | .undef => "undefined"
  | .arr vs => String.intercalate "," (jsToStringList vs)

/-- `Array.prototype.join`-style rendering of array elements: `undefined`
elements contribute the empty string, other elements their `ToString`. -/
def jsToStringList : List Value → List String
  | [] => []
  | .undef :: vs => "" :: jsToStringList vs
  | v :: vs => jsToString v :: jsToStringList vs

end

example : jsToString (.arr [.str "a", .arr [.str "b", .str "c"], .undef]) = "a,b,c," := by
  rfl

example : jsParseInt "  -42abc" = some (-42) := by decide

example : jsParseInt "abc" = none := by decide

/-- Does `hay` contain `needle` as a contiguous subsequence?  Models
JavaScript `String.prototype.includes`. -/
def listContainsSeq (needle : List Char) : List Char → Bool
  | [] => needle.isEmpty
  | c :: t => needle.isPrefixOf (c :: t) || listContainsSeq needle t

/-- JavaScript `s.includes(sub)`. -/
def strIncludes (s sub : String) : Bool :=
  listContainsSeq sub.data s.data

example : strIncludes "a%w%b" "%w%" = true := by decide

example : strIncludes "a%b" "%w%" = false := by decide

/-- ECMAScript relative-index clamping used by `slice`: a negative index
counts from the end, and indexes are clamped into `[0, len]`.  The `none`
case models a `NaN` bound, which `ToIntegerOrInfinity` converts to `0`. -/
def jsSliceIndex (len : Nat) (i : Option Int) : Nat :=
  match i with
  | none => 0
  | some i => if i < 0 then (max ((len : Int) + i) 0).toNat else min i.toNat len

/-- `Array.prototype.slice(start, end)` with JS clamping semantics,
on an arbitrary element type. -/
def jsArraySlice {α : Type} (v : List α) (s e : Option Int) : List α :=
  let a := jsSliceIndex v.length s
  let b := jsSliceIndex v.length e
  (v.drop a).take (b - a)

/-- `String.prototype.slice(start, end)` with JS clamping semantics.
Indexes count Unicode scalars here whereas JS counts UTF-16 units; the
two agree on all strings without astral-plane characters. -/
def jsStrSlice (v : String) (s e : Option Int) : String :=
  String.mk (jsArraySlice v.data s e)

example : jsArraySlice ["a", "b", "c", "d"] (some 0) (some 2) = ["a", "b"] := by decide

example : jsArraySlice ["a", "b", "c", "d"] (some (-2)) none = [] := by decide

example : jsStrSlice "hello" (some 1) (some 10) = "ello" := by decide

/-- Cut a character list at each non-overlapping occurrence of the
non-empty separator `sep`, scanning left to right.  The fuel argument
(instantiated with the input length plus one, which always suffices since
every step consumes at least one character) keeps the recursion
structural. -/
def splitOnSeq (sep : List Char) : Nat → List Char → List (List Char)
  | _, [] => [[]]
  | 0, cs => [cs]
  | fuel + 1, c :: rest =>
    if sep.isPrefixOf (c :: rest) then
      [] :: splitOnSeq sep fuel ((c :: rest).drop sep.length)
    else
      match splitOnSeq sep fuel rest with
      | [] => [[c]]
      | s :: ss => (c :: s) :: ss

/-- JavaScript `v.split(sep)` with a literal (non-regex) separator:
an empty separator splits into single characters, otherwise the string is
cut at each non-overlapping occurrence of `sep`, left to right. -/
def jsSplitLiteral (v sep : String) : List String :=
  if sep.isEmpty then v.data.map Char.toString
  else (splitOnSeq sep.data (v.data.length + 1) v.data).map String.mk

example : jsSplitLiteral "a,b,,c" "," = ["a", "b", "", "c"] := by decide

example : jsSplitLiteral "" "," = [""] := by decide

example : jsSplitLiteral "ab" "" = ["a", "b"] := by decide

/-- First normalization step of the `slice_array` argument:
`indexes.replaceAll(' ', '')`. -/
def stripSpaces (cs : List Char) : List Char :=
  cs.filter (fun c => c ≠ ' ')

/-- Second normalization step of the `slice_array` argument:
`.replaceAll(/\r\n|\n/g, '')` — a global regex replace that removes each
`"\r\n"` pair and each remaining `"\n"`, scanning left to right; a lone
`'\r'` not followed by `'\n'` is kept. -/
def stripLineBreaks : List Char → List Char
  | [] => []
  | '\r' :: '\n' :: rest => stripLineBreaks rest
  | '\n' :: rest => stripLineBreaks rest
  | c :: rest => c :: stripLineBreaks rest

example : stripLineBreaks "1,\r\n2,\n3\r".data = "1,2,3\r".data := by decide

/-- lodash `pullAt(array, indexes)` returns the list of *removed*
elements, i.e. the element found at each requested index, with
out-of-range, negative or `NaN` (`none`) indexes yielding `undefined`. -/
def jsPullAt (v : List Value) (idxs : List (Option Int)) : List Value :=
  idxs.map fun oi =>
    match oi with
    | none => .undef
    | some i =>
      if i < 0 then .undef
      else v.getD i.toNat .undef

example : jsPullAt [.str "a", .str "b", .str "c", .str "d"] [some 1, some 3] =
    [.str "b", .str "d"] := by
  decide

example : jsPullAt [.str "a"] [some 5, none] = [.undef, .undef] := by decide

/-- A compiled `%w%` wildcard pattern: the source escapes every regex
metacharacter of the raw separator/pattern and then substitutes each
`%w%` occurrence with a wildcard group, so the compiled regex is exactly
an alternation-free concatenation of literal text and wildcard groups.
`lit` chunks match their text verbatim (escaping a string and then
interpreting the result as a regex matches the original string
literally); `wild` chunks are the substituted `[^]*?` (split mode) or
`([^]*)` (replace mode) groups, matching any run of characters. -/
inductive Chunk where
  | lit (cs : List Char)
  | wild
deriving DecidableEq, Repr

/-- Decompose a raw separator/pattern into its compiled chunks: the
pieces between non-overlapping `%w%` occurrences become literals, with a
wildcard between consecutive pieces.  Mirrors
`escaped.replaceAll('%w%', …)` composed with regex interpretation. -/
def wildcardChunks (raw : String) : List Chunk :=
  go (jsSplitLiteral raw "%w%")
where
  /-- Interleave literal pieces with wildcards. -/
  go : List String → List Chunk
    | [] => []
    | [s] => [.lit s.data]
    | s :: rest => .lit s.data :: .wild :: go rest

example : wildcardChunks "a%w%b" = [.lit ['a'], .wild, .lit ['b']] := by decide

/-- Worker for `matchChunksLazy`.  The recursion consumes one unit of
fuel per call while the measure `2 * rest.length + cs.length` strictly
decreases, so fuel `2 * rest.length + cs.length + 1` always suffices and
the function stays structurally recursive (hence kernel-evaluable). -/
def matchChunksLazyGo : Nat → List Chunk → List Char → Option (List Char)
  | 0, _, _ => none
  | _ + 1, [], rest => some rest
  | fuel + 1, .lit l :: cs, rest =>
    if l.isPrefixOf rest then matchChunksLazyGo fuel cs (rest.drop l.length) else none
  | fuel + 1, .wild :: cs, rest =>
    match matchChunksLazyGo fuel cs rest with
    | some r => some r
    | none =>
      match rest with
      | [] => none
      | _ :: rest2 => matchChunksLazyGo fuel (.wild :: cs) rest2

/-- Match a chunk pattern against a prefix of `rest`, returning the
remainder after the match, with the backtracking priority of lazy
(`*?`) wildcards: a wildcard first tries to consume nothing and only
grows when the continuation fails, so the leftmost wildcard consumes as
little as possible.  `none` means no prefix of `rest` matches. -/
def matchChunksLazy (cs : List Chunk) (rest : List Char) : Option (List Char) :=
  matchChunksLazyGo (2 * rest.length + cs.length + 1) cs rest

/-- Worker for `chunksMatchAll`; fuel as in `matchChunksLazyGo`. -/
def chunksMatchAllGo : Nat → List Chunk → List Char → Bool
  | 0, _, _ => false
  | _ + 1, [], rest => rest.isEmpty
  | fuel + 1, .lit l :: cs, rest =>
    if l.isPrefixOf rest then chunksMatchAllGo fuel cs (rest.drop l.length) else false
  | fuel + 1, .wild :: cs, rest =>
    chunksMatchAllGo fuel cs rest ||
      (match rest with
       | [] => false
       | _ :: rest2 => chunksMatchAllGo fuel (.wild :: cs) rest2)

/-- Does the chunk pattern match the whole of `rest` (under some
expansion of the wildcards)? -/
def chunksMatchAll (cs : List Chunk) (rest : List Char) : Bool :=
  chunksMatchAllGo (2 * rest.length + cs.length + 1) cs rest

/-- The character-index segment `[a, b)` of `S`. -/
def listSegment (S : List Char) (a b : Nat) : List Char :=
  (S.drop a).take (b - a)

/-- Main loop of the ECMAScript `String.prototype.split(regexp)`
algorithm: starting from split point `p` and search position `q`, attempt
a sticky match of the compiled pattern at each successive `q`; on a match
ending at `e` (with `e ≠ p`, the empty-match-at-split-point guard) emit
the segment `[p, q)` and continue from `e`; when `q` passes the end of
the string, emit the final segment.  The fuel argument (instantiated with
twice the input length plus two, which always suffices since `q` advances
in every step but the one immediately after an empty match) keeps the
recursion structural. -/
def regexSplitLoop (ch : List Chunk) (S : List Char) : Nat → Nat → Nat → List (List Char)
  | 0, _, _ => []
  | fuel + 1, p, q =>
    if q ≥ S.length then [S.drop p]
    else
      match matchChunksLazy ch (S.drop q) with
      | none => regexSplitLoop ch S fuel p (q + 1)
      | some rem =>
        let e := S.length - rem.length
        if e = p then regexSplitLoop ch S fuel p (q + 1)
        else listSegment S p q :: regexSplitLoop ch S fuel e e

/-- ECMAScript `String.prototype.split` with a compiled wildcard pattern:
the empty string is special-cased (one attempt; `[]` on a match, `[""]`
otherwise), otherwise the main loop runs from position 0. -/
def jsRegexSplit (ch : List Chunk) (v : String) : List String :=
  let S := v.data
  if S.length = 0 then
    match matchChunksLazy ch S with
    | some _ => []
    | none => [""]
  else
    (regexSplitLoop ch S (2 * S.length + 2) 0 0).map String.mk

/-- The `split` transformer Func
(`Transform.ts`, wildcard-aware revision): with a separator containing
the `%w%` wildcard token, escape the separator, compile each wildcard to
a non-capturing lazy `[^]*?` group and split on the resulting regex;
otherwise split on the literal separator. -/
def splitFunc (v sep : String) : List String :=
  if strIncludes sep "%w%" then
    jsRegexSplit (wildcardChunks sep) v
  else
    jsSplitLiteral v sep

example : splitFunc "a-b-c" "-" = ["a", "b", "c"] := by decide

example : splitFunc "axxxb-ayb" "a%w%b" = ["", "-", ""] := by decide

/-- Worker for `matchChunksGreedy`: like the lazy matcher but with the
backtracking priority of greedy `*` wildcards (consume as much as
possible first), also returning the list of character runs consumed by
each wildcard, left to right — the numbered capture groups of the
compiled replace pattern. -/
def matchChunksGreedyGo : Nat → List Chunk → List Char → Option (List Char × List (List Char))
  | 0, _, _ => none
  | _ + 1, [], rest => some (rest, [])
  | fuel + 1, .lit l :: cs, rest =>
    if l.isPrefixOf rest then matchChunksGreedyGo fuel cs (rest.drop l.length) else none
  | fuel + 1, .wild :: cs, rest =>
    match rest with
    | [] =>
      match matchChunksGreedyGo fuel cs [] with
      | some (rem, caps) => some (rem, [] :: caps)
      | none => none
    | c :: rest2 =>
      match matchChunksGreedyGo fuel (.wild :: cs) rest2 with
      | some (rem, cap :: caps) => some (rem, (c :: cap) :: caps)
      | some (rem, []) => some (rem, [[c]])
      | none =>
        match matchChunksGreedyGo fuel cs rest with
        | some (rem, caps) => some (rem, [] :: caps)
        | none => none

/-- Match a chunk pattern with greedy wildcards, returning the remainder
and the wildcard captures. -/
def matchChunksGreedy (cs : List Chunk) (rest : List Char) : Option (List Char × List (List Char)) :=
  matchChunksGreedyGo (2 * rest.length + cs.length + 1) cs rest

example : matchChunksGreedy [.lit ['a'], .wild, .lit ['b']] "axbxbz".data =
    some ("z".data, ["xbx".data]) := by decide

example : matchChunksLazy [.lit ['a'], .wild, .lit ['b']] "axbxbz".data =
    some ("xbz".data, ()).1 := by decide

/-- ECMAScript `GetSubstitution`: expand a replacement template against a
match.  `$$` is a literal dollar, `$&` the matched text, a backquoted
dollar the text before the match, a quoted dollar the text after it, and
`$n` / `$nn` the `n`-th capture (two digits are preferred when they name
an existing capture; an out-of-range reference is kept literally). -/
def getSubstitution (matched before after : List Char) (caps : List (List Char)) :
    List Char → List Char
  | [] => []
  | '$' :: '$' :: r => '$' :: getSubstitution matched before after caps r
  | '$' :: '&' :: r => matched ++ getSubstitution matched before after caps r
  | '$' :: '`' :: r => before ++ getSubstitution matched before after caps r
  | '$' :: '\'' :: r => after ++ getSubstitution matched before after caps r
  | '$' :: d1 :: d2 :: r =>
    if d1.isDigit && d2.isDigit &&
        decide (1 ≤ (d1.toNat - 48) * 10 + (d2.toNat - 48)) &&
        decide ((d1.toNat - 48) * 10 + (d2.toNat - 48) ≤ caps.length) then
      caps.getD ((d1.toNat - 48) * 10 + (d2.toNat - 48) - 1) [] ++
        getSubstitution matched before after caps r
    else if d1.isDigit && decide (1 ≤ d1.toNat - 48) && decide (d1.toNat - 48 ≤ caps.length) then
      caps.getD (d1.toNat - 48 - 1) [] ++
        getSubstitution matched before after caps (d2 :: r)
    else
      '$' :: getSubstitution matched before after caps (d1 :: d2 :: r)
  | '$' :: [d1] =>
    if d1.isDigit && decide (1 ≤ d1.toNat - 48) && decide (d1.toNat - 48 ≤ caps.length) then
      caps.getD (d1.toNat - 48 - 1) []
    else
      ['$', d1]
  | ['$'] => ['$']
  | c :: rest => c :: getSubstitution matched before after caps rest

/-- Main loop of a global (`g`-flag) regex find-and-replace: at each
position try a greedy anchored match; on a non-empty match emit the
expanded substitution and continue after it, on an empty match emit the
substitution followed by the current character and advance by one
(ECMAScript `AdvanceStringIndex`), and copy unmatched characters
verbatim.  Fuel is instantiated with the input length plus two, which
always suffices since the position strictly advances. -/
def regexReplaceLoop (ch : List Chunk) (S tmpl : List Char) : Nat → Nat → List Char
  | 0, _ => []
  | fuel + 1, pos =>
    if pos > S.length then []
    else
      match matchChunksGreedy ch (S.drop pos) with
      | none =>
        (if pos < S.length then [S.getD pos 'a'] else []) ++
          regexReplaceLoop ch S tmpl fuel (pos + 1)
      | some (rem, caps) =>
        let e := S.length - rem.length
        let sub := getSubstitution (listSegment S pos e) (S.take pos) (S.drop e) caps tmpl
        if e > pos then sub ++ regexReplaceLoop ch S tmpl fuel e
        else
          sub ++ (if pos < S.length then [S.getD pos 'a'] else []) ++
            regexReplaceLoop ch S tmpl fuel (pos + 1)

/-- `v.replace(new RegExp(pattern, 'g'), replacement)` with a compiled
wildcard pattern. -/
def jsRegexReplace (ch : List Chunk) (v tmpl : String) : String :=
  String.mk (regexReplaceLoop ch v.data tmpl.data (v.data.length + 2) 0)

/-- JavaScript `v.replaceAll(pattern, replacement)` with a literal string
pattern: replace every non-overlapping occurrence left to right
(an empty pattern matches at every position), expanding `$`-sequences in
the replacement exactly as a regex replacement would. -/
def jsReplaceAllLiteral (v pattern replacement : String) : String :=
  String.mk (regexReplaceLoop [.lit pattern.data] v.data replacement.data (v.data.length + 2) 0)

example : jsReplaceAllLiteral "a-b-c" "-" "+" = "a+b+c" := by decide

example : jsReplaceAllLiteral "ab" "" "-" = "-a-b-" := by decide

/-- The `replace` transformer Func (wildcard-aware revision): with a
pattern containing `%w%`, escape the pattern, compile each wildcard to a
capturing greedy `([^]*)` group and replace globally (backreferences
available in the replacement); otherwise a literal `replaceAll`. -/
def replaceFunc (v pattern replacement : String) : String :=
  if strIncludes pattern "%w%" then
    jsRegexReplace (wildcardChunks pattern) v replacement
  else
    jsReplaceAllLiteral v pattern replacement

example : replaceFunc "k=v;k2=v2" "=%w%;" "_$1_" = "k_v_k2=v2" := by decide

/-- The `trim` transformer Func: `v.trim()`, removing leading and
trailing JavaScript white space. -/
def trimFunc (v : String) : String :=
  String.mk (((v.data.dropWhile jsIsWhitespace).reverse.dropWhile jsIsWhitespace).reverse)

example : trimFunc "  a b\n " = "a b" := by decide

/-- The `lower_case` transformer Func: `v.toLowerCase()` (modelled with
Lean's ASCII case mapping; the two agree on ASCII inputs). -/
def lowerCaseFunc (v : String) : String :=
  String.mk (v.data.map Char.toLower)

/-- The `upper_case` transformer Func: `v.toUpperCase()` (ASCII case
mapping, as for `lowerCaseFunc`). -/
def upperCaseFunc (v : String) : String :=
  String.mk (v.data.map Char.toUpper)

/-- The `slice` transformer Func: parse both arguments with
`parseInt(_, 10)` and take `v.slice(s, e)`. -/
def sliceFunc (v : String) (start stop : String) : String :=
  jsStrSlice v (jsParseInt start) (jsParseInt stop)

example : sliceFunc "hello" "1" "3" = "el" := by decide

/-- The argument normalization of `slice_array`:
`indexes.replaceAll(' ', '').replaceAll(/\r\n|\n/g, '')`. -/
def sliceArrayNormalize (indexes : String) : String :=
  String.mk (stripLineBreaks (stripSpaces indexes.data))

/-- The `slice_array` transformer Func (`Indexes` revision): normalize
the argument by deleting spaces and line breaks, then
* dash present: split on `-`; with exactly two parts, `v.slice(s, e)` of
  the parsed bounds, otherwise return `v` unchanged;
* comma present: parse each part and return `pullAt(copy, indexes)` —
  the elements *at* the parsed positions (lodash `pullAt` returns the
  pulled elements);
* otherwise: parse a single index; `NaN` returns `v` unchanged, else
  `pullAt(copy, idx)`. -/
def sliceArrayFunc (v : List Value) (indexes : String) : List Value :=
  let normalized := sliceArrayNormalize indexes
  if strIncludes normalized "-" then
    let commaSpt := jsSplitLiteral normalized "-"
    if commaSpt.length ≠ 2 then v
    else jsArraySlice v (jsParseInt (commaSpt.getD 0 "")) (jsParseInt (commaSpt.getD 1 ""))
  else if strIncludes normalized "," then
    let commaSpt := jsSplitLiteral normalized ","
    jsPullAt v (commaSpt.map jsParseInt)
  else
    match jsParseInt normalized with
    | none => v
    | some idx => jsPullAt v [some idx]

example : sliceArrayFunc [.str "a", .str "b", .str "c", .str "d"] "1,3" =
    [.str "b", .str "d"] := by decide

example : sliceArrayFunc [.str "a", .str "b", .str "c", .str "d"] "0-2" =
    [.str "a", .str "b"] := by decide

example : sliceArrayFunc [.str "a", .str "b", .str "c"] "1" = [.str "b"] := by decide

example : sliceArrayFunc [.str "a", .str "b", .str "c"] "abc" =
    [.str "a", .str "b", .str "c"] := by decide

/-- The `reverse` transformer Func: reverse a (deep) copy. -/
def reverseFunc (v : List Value) : List Value :=
  v.reverse

/-- The numeric sort key used by the `sort` Func comparator:
`parseInt(v, 10)` after JavaScript `ToString` coercion. -/
def sortKey (v : Value) : Option Int :=
  jsParseInt (jsToString v)

/-- Comparator order of the numeric branch of `sort`: ascending by
`parseInt` value (the branch only runs when every key parses). -/
def numSortRel (a b : Value) : Prop :=
  (sortKey a).getD 0 ≤ (sortKey b).getD 0

instance : DecidableRel numSortRel := fun a b => by
  unfold numSortRel
  infer_instance

/-- Lexicographic strict order on character lists, the order JavaScript
uses to compare strings (code-unit comparison; identical to scalar-wise
comparison away from astral-plane characters). -/
def charListLtB : List Char → List Char → Bool
  | [], [] => false
  | [], _ :: _ => true
  | _ :: _, [] => false
  | a :: as, b :: bs =>
    if a < b then true else if b < a then false else charListLtB as bs

/-- JavaScript string comparison `a < b`. -/
def jsStrLtB (a b : String) : Bool :=
  charListLtB a.data b.data

/-- Default `Array.prototype.sort` comparator as a non-strict order:
elements compare as strings (after `ToString`) and `undefined` elements
sort last. -/
def defaultLeB (a b : Value) : Bool :=
  match a, b with
  | .undef, .undef => true
  | .undef, _ => false
  | _, .undef => true
  | x, y => !(jsStrLtB (jsToString y) (jsToString x))

/-- Default sort order as a relation. -/
def defaultSortRel (a b : Value) : Prop :=
  defaultLeB a b = true

instance : DecidableRel defaultSortRel := fun a b =>
  instDecidableEqBool (defaultLeB a b) true

/-- The `sort` transformer Func: on a copy, sort numerically ascending
when every element parses as an integer, otherwise by the default string
order.  JavaScript `Array.prototype.sort` is a stable sort, modelled by
`List.insertionSort` (for a total preorder comparator, the stable sorted
permutation is unique, so any stable sorting algorithm is equivalent). -/
def sortFunc (v : List Value) : List Value :=
  let isAllInt := v.all (fun x => (sortKey x).isSome)
  if !isAllInt then
    List.insertionSort defaultSortRel v
  else
    List.insertionSort numSortRel v

example : sortFunc [.str "10", .str "2", .str "1"] = [.str "1", .str "2", .str "10"] := by
  decide

example : sortFunc [.str "b", .str "a", .str "10"] = [.str "10", .str "a", .str "b"] := by
  decide

/-- The `join` transformer Func: `v.join(sep)` — concatenate the
`ToString` of every element (empty for `undefined`) with the separator
in between. -/
def joinFunc (v : List Value) (sep : String) : String :=
  String.intercalate sep (jsToStringList v)

example : joinFunc [.str "a", .str "b"] "-" = "a-b" := by rfl

/-- An argument descriptor of a transformer (`Args` entries). -/
structure PSArg where
  Name : String
  Placeholder : String
deriving Repr

/-- `PSTransformer`: a transformer definition of the catalog.  `Func` is
total here; the engine only ever invokes it on a value of the `Target`
shape with the declared number of arguments, and on any other input the
embedded Funcs below return the value unchanged (such calls never happen
through `applyTransformer`). -/
structure PSTransformer where
  ID : String
  Target : PSTy
  Return : PSTy
  Name : String
  Description : String
  Icon : String
  Func : Value → List String → Value
  Args : List PSArg

/-- The `split` catalog entry. -/
def splitTransformer : PSTransformer where
  ID := "split"
  Target := .string
  Return := .array
  Name := "Split"
  Description := "Split the string at the ocurrencies of the given <b>Separator</b>."
  Icon := "cut"
  Func := fun v args =>
    match v with
    | .str s => .arr ((splitFunc s (args.getD 0 "")).map .str)
    | v => v
  Args := [{ Name := "Separator", Placeholder := "Use %w% as wildcard" }]

/-- The `replace` catalog entry. -/
def replaceTransformer : PSTransformer where
  ID := "replace"
  Target := .string
  Return := .string
  Name := "Replace"
  Description := "Replace all ocurrencies of <b>Pattern</b> with the <b>Replacement</b> content"
  Icon := "find_replace"
  Func := fun v args =>
    match v with
    | .str s => .str (replaceFunc s (args.getD 0 "") (args.getD 1 ""))
    | v => v
  Args := [{ Name := "Pattern", Placeholder := "Use %w% as wildcard" },
    { Name := "Replacement",
      Placeholder := "Use $& for matched and $n (n = %w% index, starting from 1) for wildcarded substrings" }]

/-- The `trim` catalog entry. -/
def trimTransformer : PSTransformer where
  ID := "trim"
  Target := .string
  Return := .string
  Name := "Trim"
  Description := "Remove leading and trailing spaces"
  Icon := "space_bar"
  Func := fun v _ =>
    match v with
    | .str s => .str (trimFunc s)
    | v => v
  Args := []

/-- The `lower_case` catalog entry. -/
def lowerCaseTransformer : PSTransformer where
  ID := "lower_case"
  Target := .string
  Return := .string
  Name := "Lower Case"
  Description := "Convert the string to lower case"
  Icon := "arrow_downward"
  Func := fun v _ =>
    match v with
    | .str s => .str (lowerCaseFunc s)
    | v => v
  Args := []

/-- The `upper_case` catalog entry. -/
def upperCaseTransformer : PSTransformer where
  ID := "upper_case"
  Target := .string
  Return := .string
  Name := "Upper Case"
  Description := "Convert the string to upper case"
  Icon := "arrow_upward"
  Func := fun v _ =>
    match v with
    | .str s => .str (upperCaseFunc s)
    | v => v
  Args := []

/-- The `slice` catalog entry. -/
def sliceTransformer : PSTransformer where
  ID := "slice"
  Target := .string
  Return := .string
  Name := "Slice"
  Description := "Slice a section of the string, between <b>Start</b> and <b>End</b> indexes."
  Icon := "carpenter"
  Func := fun v args =>
    match v with
    | .str s => .str (sliceFunc s (args.getD 0 "") (args.getD 1 ""))
    | v => v
  Args := [{ Name := "Start", Placeholder := "" },
    { Name := "End (exclusive)", Placeholder := "" }]

/-- The `slice_array` catalog entry (the `Indexes` mini-language
revision). -/
def sliceArrayTransformer : PSTransformer where
  ID := "slice_array"
  Target := .array
  Return := .array
  Name := "Slice Array"
  Description := "Slice a section of the array, at the given <b>Indexes</b>."
  Icon := "carpenter"
  Func := fun v args =>
    match v with
    | .arr vs => .arr (sliceArrayFunc vs (args.getD 0 ""))
    | v => v
  Args := [{ Name := "Indexes to slice (use , for lists and - for intervals)",
             Placeholder := "List e.g.: 0,3,5\nInterval e.g.: 0-5" }]

/-- The `reverse` catalog entry. -/
def reverseTransformer : PSTransformer where
  ID := "reverse"
  Target := .array
  Return := .array
  Name := "Reverse"
  Description := "Reverse the array."
  Icon := "restart_alt"
  Func := fun v _ =>
    match v with
    | .arr vs => .arr (reverseFunc vs)
    | v => v
  Args := []

/-- The `sort` catalog entry. -/
def sortTransformer : PSTransformer where
  ID := "sort"
  Target := .array
  Return := .array
  Name := "Sort"
  Description := "Sort the array."
  Icon := "sort"
  Func := fun v _ =>
    match v with
    | .arr vs => .arr (sortFunc vs)
    | v => v
  Args := []

/-- The `join` catalog entry. -/
def joinTransformer : PSTransformer where
  ID := "join"
  Target := .array
  Return := .string
  Name := "Join"
  Description := "Adds all the elements of the array into a string, separated by the specified <b>Separator</b>."
  Icon := "join"
  Func := fun v args =>
    match v with
    | .arr vs => .str (joinFunc vs (args.getD 0 ""))
    | v => v
  Args := [{ Name := "Separator", Placeholder := "" }]

/-- `PSTransformers`: the catalog, in declaration order of the
wildcard-aware revision of `Transform.ts` (both revisions declare the
same ten IDs). -/
def PSTransformers : List PSTransformer :=
  [splitTransformer, replaceTransformer, trimTransformer, lowerCaseTransformer,
   upperCaseTransformer, sliceTransformer, sliceArrayTransformer, reverseTransformer,
   sortTransformer, joinTransformer]

/-- A transformer paired with its supplied arguments
(`PSTransformerWithArguments`). -/
structure PSTransformerWithArguments where
  Transformer : PSTransformer
  Arguments : List String

mutual

/-- `applyTransformer` (`Transform.ts`): apply one transformer
invocation to a value.  A value that is neither string nor array
(`undefined`) and an array-targeted transformer applied to a string both
throw; a string-targeted transformer maps recursively over arrays; an
array-targeted transformer applies directly to an array whose first
element is a string (the innermost-array test) and otherwise recurses
over the elements. -/
def applyTransformer (v : Value) (t : PSTransformerWithArguments) : Except String Value :=
  match v with
  | .undef => .error "applyTransformer: v is not a string nor array"
  | .str s =>
    if t.Transformer.Target = PSTy.array then
      .error "applyTransformer: a targeted array transformer cannot be applied on string"
    else
      .ok (t.Transformer.Func (.str s) t.Arguments)
  | .arr vs =>
    if t.Transformer.Target = PSTy.string then
      match applyTransformerList vs t with
      | .error e => .error e
      | .ok vs2 => .ok (.arr vs2)
    else
      match vs with
      | .str s :: rest => .ok (t.Transformer.Func (.arr (.str s :: rest)) t.Arguments)
      | _ =>
        match applyTransformerList vs t with
        | .error e => .error e
        | .ok vs2 => .ok (.arr vs2)

/-- `v.map((vm) => applyTransformer(vm, t))`: JavaScript `map` with a
throwing callback aborts at the first exception, which the `Except`
sequencing mirrors. -/
def applyTransformerList (vs : List Value) (t : PSTransformerWithArguments) :
    Except String (List Value) :=
  match vs with
  | [] => .ok []
  | v :: rest =>
    match applyTransformer v t with
    | .error e => .error e
    | .ok v2 =>
      match applyTransformerList rest t with
      | .error e => .error e
      | .ok rest2 => .ok (v2 :: rest2)

end

/-- Definitional unfolding of `applyTransformer` on an array value. -/
theorem applyTransformer_arr (t : PSTransformerWithArguments) (vs : List Value) :
    applyTransformer (.arr vs) t =
      (if t.Transformer.Target = PSTy.string then
        match applyTransformerList vs t with
        | .error e => .error e
        | .ok vs2 => .ok (.arr vs2)
      else
        match vs with
        | .str s :: rest => .ok (t.Transformer.Func (.arr (.str s :: rest)) t.Arguments)
        | _ =>
          match applyTransformerList vs t with
          | .error e => .error e
          | .ok vs2 => .ok (.arr vs2)) := rfl

example : applyTransformer (.str "a|b") ⟨splitTransformer, ["|"]⟩ =
    .ok (.arr [.str "a", .str "b"]) := by rfl

example : applyTransformer (.arr [.arr [.str "b", .str "a"]]) ⟨sortTransformer, []⟩ =
    .ok (.arr [.arr [.str "a", .str "b"]]) := by rfl

example : applyTransformer (.str "x") ⟨reverseTransformer, []⟩ =
    .error "applyTransformer: a targeted array transformer cannot be applied on string" := by rfl

/-- The alert message emitted by the chain evaluator when a step throws
(`outputValue` in the Transform view). -/
def alertMessage (t : PSTransformerWithArguments) (e : String) : String :=
  "Failed to apply transformer " ++ t.Transformer.Name ++
    ". Maybe it previous transformer is bugged - try to remove it.\n\n" ++ e

/-- The `forEach` loop of `outputValue`, folding from an arbitrary
accumulated state: a throwing step leaves the value unchanged and
appends an alert report, and evaluation continues with the next step. -/
def runChainAcc (acc : Value × List String) (ts : List PSTransformerWithArguments) :
    Value × List String :=
  ts.foldl
    (fun acc t =>
      match applyTransformer acc.1 t with
      | .ok v2 => (v2, acc.2)
      | .error e => (acc.1, acc.2 ++ [alertMessage t e]))
    acc

/-- The `forEach` loop of `outputValue` from the start of the pipeline:
value so far together with the alert reports raised. -/
def runChain (v : Value) (ts : List PSTransformerWithArguments) : Value × List String :=
  runChainAcc (v, []) ts

/-- `outputValue`: the computed output of the Transform view — the empty
string short-circuits (`if (v.length === 0) return ''`) before any
transformer runs, otherwise the chain is folded over the input.  The
second component collects the alert reports. -/
def outputValue (input : String) (ts : List PSTransformerWithArguments) :
    Value × List String :=
  if input.length = 0 then (.str "", [])
  else runChain (.str input) ts

example : outputValue "b,a" [⟨splitTransformer, [","]⟩, ⟨sortTransformer, []⟩] =
    (.arr [.str "a", .str "b"], []) := by rfl

/-- Parsed JSON structured data, as produced by `JSON.parse`.  Numbers
keep their raw lexeme: the codec never reads a numeric value, so no
floating-point semantics are needed. -/
inductive Json where
  | null
  | bool (b : Bool)
  | num (raw : String)
  | str (s : String)
  | arr (elems : List Json)
  | obj (members : List (String × Json))
deriving Repr

/-- Lower-case hexadecimal digit for `n < 16`. -/
def hexDigitChar (n : Nat) : Char :=
  if n < 10 then Char.ofNat (48 + n) else Char.ofNat (87 + n)

/-- `JSON.stringify` escape of one string character: quote, backslash and
the named control characters get two-character escapes, the remaining
control characters a `\u00XX` escape, everything else is copied. -/
def escapeChar (c : Char) : List Char :=
  if c = '"' then ['\\', '"']
  else if c = '\\' then ['\\', '\\']
  else if c = '\x08' then ['\\', 'b']
  else if c = '\x0c' then ['\\', 'f']
  else if c = '\n' then ['\\', 'n']
  else if c = '\r' then ['\\', 'r']
  else if c = '\t' then ['\\', 't']
  else if c.toNat < 32 then ['\\', 'u', '0', '0', hexDigitChar (c.toNat / 16), hexDigitChar (c.toNat % 16)]
  else [c]

/-- `JSON.stringify` quoting of a string. -/
def quoteJsonString (s : String) : List Char :=
  '"' :: (s.data.flatMap escapeChar) ++ ['"']

mutual

/-- `JSON.stringify` (compact form, as called with a single argument):
renders a `Json` tree to text. -/
def jsonStringify : Json → List Char
  | .null => "null".data
  | .bool true => "true".data
  | .bool false => "false".data
  | .num raw => raw.data
  | .str s => quoteJsonString s
  | .arr es => '[' :: jsonStringifyItems es ++ [']']
  | .obj ms => '{' :: jsonStringifyMembers ms ++ ['}']

/-- Comma-separated rendering of array elements. -/
def jsonStringifyItems : List Json → List Char
  | [] => []
  | [e] => jsonStringify e
  | e :: rest => jsonStringify e ++ ',' :: jsonStringifyItems rest

/-- Comma-separated rendering of object members. -/
def jsonStringifyMembers : List (String × Json) → List Char
  | [] => []
  | [(k, v)] => quoteJsonString k ++ ':' :: jsonStringify v
  | (k, v) :: rest =>
    quoteJsonString k ++ ':' :: jsonStringify v ++ ',' :: jsonStringifyMembers rest

end

example : String.mk (jsonStringify (.arr [.obj [("i", .str "split"), ("a", .arr [.str ","])]])) =
    "[\x7b\"i\":\"split\",\"a\":[\",\"]\x7d]" := by rfl

/-- JSON insignificant white space. -/
def skipJsonWs (cs : List Char) : List Char :=
  cs.dropWhile (fun c => c = ' ' || c = '\t' || c = '\n' || c = '\r')

/-- Value of a hexadecimal digit. -/
def hexVal (c : Char) : Option Nat :=
  if '0' ≤ c && c ≤ '9' then some (c.toNat - 48)
  else if 'a' ≤ c && c ≤ 'f' then some (c.toNat - 87)
  else if 'A' ≤ c && c ≤ 'F' then some (c.toNat - 55)
  else none

/-- Value of a four-digit hexadecimal escape. -/
def hexVal4 (a b c d : Char) : Option Nat :=
  match hexVal a, hexVal b, hexVal c, hexVal d with
  | some x, some y, some z, some w => some (((x * 16 + y) * 16 + z) * 16 + w)
  | _, _, _, _ => none

/-- Convert a Unicode code point to a `Char`; invalid scalar values map
to `Char.ofNat`'s default.  (JavaScript strings are UTF-16 and can hold
lone surrogates; the Lean model is scalar-based, so a surrogate escape
decodes to the default character.  `JSON.stringify` output never
contains such escapes, so this modelling choice is unobservable through
the codec.) -/
def codePointChar (n : Nat) : Char :=
  Char.ofNat n

/-- Decoding of one simple (single-letter) escape. -/
def simpleUnescape (e : Char) : Option Char :=
  if e = '"' then some '"'
  else if e = '\\' then some '\\'
  else if e = '/' then some '/'
  else if e = 'b' then some '\x08'
  else if e = 'f' then some '\x0c'
  else if e = 'n' then some '\n'
  else if e = 'r' then some '\r'
  else if e = 't' then some '\t'
  else none

/-- Body of a JSON string literal (after the opening quote): returns the
decoded characters and the text after the closing quote.  Raw control
characters and invalid escapes are rejected and `\uXXXX` escapes are
decoded (each independently; see `codePointChar` for the surrogate
caveat). -/
def parseJStringBody : List Char → Option (List Char × List Char)
  | [] => none
  | c :: rest =>
    if c = '"' then some ([], rest)
    else if c = '\\' then
      match rest with
      | [] => none
      | e :: rest2 =>
        if e = 'u' then
          match rest2 with
          | a :: b :: c2 :: d :: rest3 =>
            match hexVal4 a b c2 d with
            | none => none
            | some n => (parseJStringBody rest3).map (fun p => (codePointChar n :: p.1, p.2))
          | _ => none
        else
          match simpleUnescape e with
          | some c2 => (parseJStringBody rest2).map (fun p => (c2 :: p.1, p.2))
          | none => none
    else if c.toNat < 32 then none
    else (parseJStringBody rest).map (fun p => (c :: p.1, p.2))

example : parseJStringBody "ab\\n\\u0041c\"rest".data = some ("ab\nAc".data, "rest".data) := by
  decide

/-- Lexeme of a JSON number (sign, integer part, optional fraction and
exponent), kept raw.  Trailing context decides validity: the surrounding
parser rejects any leftover characters a real `JSON.parse` would choke
on. -/
def parseJsonNumber (cs : List Char) : Option (Json × List Char) :=
  let (sgn, cs1) : List Char × List Char :=
    match cs with
    | '-' :: r => (['-'], r)
    | r => ([], r)
  let int := cs1.takeWhile Char.isDigit
  let cs2 := cs1.dropWhile Char.isDigit
  if int.isEmpty then none
  else
    let (frac, cs3) : List Char × List Char :=
      match cs2 with
      | '.' :: r =>
        if (r.takeWhile Char.isDigit).isEmpty then ([], cs2)
        else ('.' :: r.takeWhile Char.isDigit, r.dropWhile Char.isDigit)
      | r => ([], r)
    let (ex, cs4) : List Char × List Char :=
      match cs3 with
      | 'e' :: '+' :: r =>
        if (r.takeWhile Char.isDigit).isEmpty then ([], cs3)
        else ('e' :: '+' :: r.takeWhile Char.isDigit, r.dropWhile Char.isDigit)
      | 'e' :: '-' :: r =>
        if (r.takeWhile Char.isDigit).isEmpty then ([], cs3)
        else ('e' :: '-' :: r.takeWhile Char.isDigit, r.dropWhile Char.isDigit)
      | 'e' :: r =>
        if (r.takeWhile Char.isDigit).isEmpty then ([], cs3)
        else ('e' :: r.takeWhile Char.isDigit, r.dropWhile Char.isDigit)
      | 'E' :: '+' :: r =>
        if (r.takeWhile Char.isDigit).isEmpty then ([], cs3)
        else ('E' :: '+' :: r.takeWhile Char.isDigit, r.dropWhile Char.isDigit)
      | 'E' :: '-' :: r =>
        if (r.takeWhile Char.isDigit).isEmpty then ([], cs3)
        else ('E' :: '-' :: r.takeWhile Char.isDigit, r.dropWhile Char.isDigit)
      | 'E' :: r =>
        if (r.takeWhile Char.isDigit).isEmpty then ([], cs3)
        else ('E' :: r.takeWhile Char.isDigit, r.dropWhile Char.isDigit)
      | r => ([], r)
    some (.num (String.mk (sgn ++ int ++ frac ++ ex)), cs4)

mutual

/-- `JSON.parse` value parser.  Fuel decreases on every call, keeping the
mutual recursion structural; `jsonParse` supplies fuel that always
suffices (see there). -/
def parseJsonVal : Nat → List Char → Option (Json × List Char)
  | 0, _ => none
  | fuel + 1, cs =>
    match skipJsonWs cs with
    | [] => none
    | c :: rest =>
      if c = '{' then
        match skipJsonWs rest with
        | [] => (parseJsonMembers fuel []).map (fun p => (Json.obj p.1, p.2))
        | c2 :: rest2 =>
          if c2 = '}' then some (.obj [], rest2)
          else (parseJsonMembers fuel (c2 :: rest2)).map (fun p => (Json.obj p.1, p.2))
      else if c = '[' then
        match skipJsonWs rest with
        | [] => (parseJsonItems fuel []).map (fun p => (Json.arr p.1, p.2))
        | c2 :: rest2 =>
          if c2 = ']' then some (.arr [], rest2)
          else (parseJsonItems fuel (c2 :: rest2)).map (fun p => (Json.arr p.1, p.2))
      else if c = '"' then
        (parseJStringBody rest).map (fun p => (Json.str (String.mk p.1), p.2))
      else if "true".data.isPrefixOf (c :: rest) then some (.bool true, rest.drop 3)
      else if "false".data.isPrefixOf (c :: rest) then some (.bool false, rest.drop 4)
      else if "null".data.isPrefixOf (c :: rest) then some (.null, rest.drop 3)
      else parseJsonNumber (c :: rest)

/-- One or more comma-separated array elements followed by `]`. -/
def parseJsonItems : Nat → List Char → Option (List Json × List Char)
  | 0, _ => none
  | fuel + 1, cs =>
    match parseJsonVal fuel cs with
    | none => none
    | some (v, rest) =>
      match skipJsonWs rest with
      | [] => none
      | c :: rest2 =>
        if c = ',' then (parseJsonItems fuel rest2).map (fun p => (v :: p.1, p.2))
        else if c = ']' then some ([v], rest2)
        else none

/-- One or more comma-separated object members followed by the closing brace. -/
def parseJsonMembers : Nat → List Char → Option (List (String × Json) × List Char)
  | 0, _ => none
  | fuel + 1, cs =>
    match skipJsonWs cs with
    | [] => none
    | c :: rest =>
      if c = '"' then
        match parseJStringBody rest with
        | none => none
        | some (key, rest2) =>
          match skipJsonWs rest2 with
          | [] => none
          | c2 :: rest3 =>
            if c2 = ':' then
              match parseJsonVal fuel rest3 with
              | none => none
              | some (v, rest4) =>
                match skipJsonWs rest4 with
                | [] => none
                | c3 :: rest5 =>
                  if c3 = ',' then
                    (parseJsonMembers fuel rest5).map
                      (fun p => ((String.mk key, v) :: p.1, p.2))
                  else if c3 = '}' then some ([(String.mk key, v)], rest5)
                  else none
            else none
      else none

end

/-- `JSON.parse`: parse one value and require only white space after it.
`none` models a thrown `SyntaxError`.  The fuel `2 * length + 2` always
suffices: at least one character is consumed per two fuel units along
any call path. -/
def jsonParse (s : String) : Option Json :=
  match parseJsonVal (2 * s.data.length + 2) s.data with
  | some (j, rest) => if (skipJsonWs rest).isEmpty then some j else none
  | none => none

example : jsonParse "[\x7b\"i\":\"split\",\"a\":[\",\"]\x7d]" =
    some (.arr [.obj [("i", .str "split"), ("a", .arr [.str ","])]]) := by rfl

example : jsonParse " [1, true, null, \"x\"] " =
    some (.arr [.num "1", .bool true, .null, .str "x"]) := by rfl

example : jsonParse "[" = none := by rfl

example : jsonParse "\x7b\"a\":2" = none := by rfl

/-- `encodeATL` as a `Json` tree: a record `{i, a}` per applied
transformer, in pipeline order. -/
def encodeTree (ts : List PSTransformerWithArguments) : Json :=
  .arr (ts.map (fun t => .obj [("i", .str t.Transformer.ID), ("a", .arr (t.Arguments.map .str))]))

/-- `encodeATL`: serialize the applied-transformer list to a compact
token (`JSON.stringify` of the record array). -/
def encodeATL (ts : List PSTransformerWithArguments) : String :=
  String.mk (jsonStringify (encodeTree ts))

example : encodeATL [⟨splitTransformer, [","]⟩, ⟨sortTransformer, []⟩] =
    "[\x7b\"i\":\"split\",\"a\":[\",\"]\x7d,\x7b\"i\":\"sort\",\"a\":[]\x7d]" := by rfl

/-- JavaScript property access `t?.k` on parsed JSON data: `undefined`
(`none`) unless `t` is an object with member `k` (the last member wins
when `JSON.parse` kept duplicate keys). -/
def objGet (j : Json) (k : String) : Option Json :=
  match j with
  | .obj ms => (ms.reverse.find? (fun m => m.1 == k)).map (fun m => m.2)
  | _ => none

/-- The strict comparison `pst.ID === t.i` of the catalog lookup inside
`decodeATL`: true only when `t.i` is a string equal to the ID. -/
def jsonIdMatches (ji : Json) (id : String) : Bool :=
  match ji with
  | .str s => s == id
  | _ => false

/-- Is this parsed JSON value a string? -/
def jsonIsStr (a : Json) : Bool :=
  match a with
  | .str _ => true
  | _ => false

/-- Text of a parsed JSON string (the decode loop only reads arguments
after checking `jsonIsStr` on all of them). -/
def jsonArgString (a : Json) : String :=
  match a with
  | .str s => s
  | _ => ""

/-- The record loop of `decodeATL` (`p.forEach`): for each record
require `i` present and `a` an array, all elements of `a` strings, and a
catalog transformer with ID `i`; the first failing check of the first
failing record aborts the whole decode. -/
def decodeATLItems : List Json → Except String (List PSTransformerWithArguments)
  | [] => .ok []
  | t :: rest =>
    match objGet t "i", objGet t "a" with
    | some ji, some (.arr as) =>
      if as.all jsonIsStr then
        match PSTransformers.find? (fun pst => jsonIdMatches ji pst.ID) with
        | some tf =>
          match decodeATLItems rest with
          | .ok ps => .ok (⟨tf, as.map jsonArgString⟩ :: ps)
          | .error e => .error e
        | none => .error "decodeAppliedTransformerList: transformer not found"
      else .error "decodeAppliedTransformerList: transformer has non-string argument"
    | _, _ => .error "decodeAppliedTransformerList: transformer id or args malformed"

/-- `decodeATL`: parse the token (`JSON.parse`; a syntax error aborts),
require a top-level array, and decode each record through
`decodeATLItems`.  Any failure yields an error and no pipeline. -/
def decodeATL (t : String) : Except String (List PSTransformerWithArguments) :=
  match jsonParse t with
  | none => .error "SyntaxError: JSON.parse: unexpected token"
  | some p =>
    match p with
    | .arr items => decodeATLItems items
    | _ => .error "decodeAppliedTransformerList: parsed value is not array"

example : decodeATL "[\x7b\"i\":\"split\",\"a\":[\",\"]\x7d]" =
    .ok [⟨splitTransformer, [","]⟩] := by rfl

example : decodeATL "\x7b\"i\":\"split\"\x7d" =
    .error "decodeAppliedTransformerList: parsed value is not array" := by rfl

example : decodeATL "[\x7b\"i\":\"nope\",\"a\":[]\x7d]" =
    .error "decodeAppliedTransformerList: transformer not found" := by rfl

example : decodeATL "[\x7b\"i\":\"split\",\"a\":[5]\x7d]" =
    .error "decodeAppliedTransformerList: transformer has non-string argument" := by rfl

example : decodeATL "oops" = .error "SyntaxError: JSON.parse: unexpected token" := by rfl

/-! ## Helper predicates and induction principles for the claims -/

mutual

/-- A value of the engine's declared data model: built from strings and
arrays only (no JavaScript `undefined` leaf). -/
def noUndef : Value → Bool
  | .str _ => true
  | .undef => false
  | .arr vs => noUndefList vs

/-- `noUndef` on every element. -/
def noUndefList : List Value → Bool
  | [] => true
  | v :: vs => noUndef v && noUndefList vs

end

mutual

/-- Map a function over every leaf string of a value, preserving the
array structure. -/
def leafMap (f : String → Value) : Value → Value
  | .str s => f s
  | .undef => .undef
  | .arr vs => .arr (leafMapList f vs)

/-- `leafMap` on every element. -/
def leafMapList (f : String → Value) : List Value → List Value
  | [] => []
  | v :: vs => leafMap f v :: leafMapList f vs

end

/-- Structural induction on `Value` with a membership hypothesis for
array elements. -/
def Value.inductionOn {P : Value → Prop}
    (hstr : ∀ s, P (.str s)) (hundef : P .undef)
    (harr : ∀ vs, (∀ x ∈ vs, P x) → P (.arr vs)) : ∀ v, P v
  | .str s => hstr s
  | .undef => hundef
  | .arr vs =>
    harr vs (fun x hx =>
      have : sizeOf x < sizeOf (Value.arr vs) := by
        have hm := List.sizeOf_lt_of_mem hx
        simp only [Value.arr.sizeOf_spec]
        omega
      Value.inductionOn hstr hundef harr x)
termination_by v => sizeOf v

/-! ## C10 -/

/-- C10: for every pipeline, evaluating the chain on the empty-string
input returns the empty string immediately — the evaluator
short-circuits on length-zero input before running any transformer — so
even a transformer that maps `""` to a non-empty value (such as `split`,
which yields `[""]`) is skipped entirely. -/
theorem c10_empty_input_short_circuits :
    (∀ ts : List PSTransformerWithArguments, outputValue "" ts = (.str "", [])) ∧
    applyTransformer (.str "") ⟨splitTransformer, [","]⟩ = .ok (.arr [.str ""]) := by
  constructor
  · intro ts
    rfl
  · rfl

/-! ## C9 -/

/-- C9: every array-targeted transformer — whatever its `Func` — maps
the empty array to the empty array without its `Func` ever running: the
innermost-array test needs a non-empty array with a string head, and the
fallback recursion maps over zero elements.  In particular `join`, whose
declared `Return` is `string`, produces an (empty) array on `[]`, not a
string. -/
theorem c9_empty_array_skips_func :
    (∀ t : PSTransformerWithArguments, t.Transformer.Target = PSTy.array →
      applyTransformer (.arr []) t = .ok (.arr [])) ∧
    joinTransformer.Return = PSTy.string ∧
    applyTransformer (.arr []) ⟨joinTransformer, [","]⟩ = .ok (.arr []) ∧
    ∀ s, applyTransformer (.arr []) ⟨joinTransformer, [","]⟩ ≠ .ok (.str s) := by
  refine ⟨?_, rfl, rfl, ?_⟩
  · intro t ht
    rw [applyTransformer_arr, if_neg (by rw [ht]; intro hc; cases hc)]
    rfl
  · intro s h
    rw [show applyTransformer (.arr []) ⟨joinTransformer, [","]⟩ = .ok (.arr []) from rfl] at h
    simp at h

/-- C9 witness: the general statement applied to the `reverse`
transformer. -/
theorem c9_empty_array_skips_func_witness :
    applyTransformer (.arr []) ⟨reverseTransformer, []⟩ = .ok (.arr []) :=
  c9_empty_array_skips_func.1 ⟨reverseTransformer, []⟩ rfl

/-! ## C3 -/

/-- One step of the chain fold. -/
theorem runChainAcc_cons (acc : Value × List String)
    (t : PSTransformerWithArguments) (ts : List PSTransformerWithArguments) :
    runChainAcc acc (t :: ts) =
      runChainAcc
        (match applyTransformer acc.1 t with
         | .ok v2 => (v2, acc.2)
         | .error e => (acc.1, acc.2 ++ [alertMessage t e])) ts := rfl

/-- The chain fold started with pending reports `r` threads the value
identically and prefixes `r` to the reports it produces. -/
theorem runChainAcc_shift (ts : List PSTransformerWithArguments) :
    ∀ (v : Value) (r : List String),
      runChainAcc (v, r) ts =
        ((runChainAcc (v, []) ts).1, r ++ (runChainAcc (v, []) ts).2) := by
  induction ts with
  | nil =>
    intro v r
    simp [runChainAcc]
  | cons t ts ih =>
    intro v r
    rw [runChainAcc_cons, runChainAcc_cons]
    cases h : applyTransformer v t with
    | ok v2 =>
      simp only [h]
      exact ih v2 r
    | error e =>
      simp only [h, List.nil_append]
      rw [ih v (r ++ [alertMessage t e]), ih v [alertMessage t e]]
      simp

/-- `runChain` over a concatenation: the fold continues from the first
part's value, and the reports concatenate. -/
theorem runChain_append (v : Value) (xs ys : List PSTransformerWithArguments) :
    runChain v (xs ++ ys) =
      ((runChain (runChain v xs).1 ys).1,
       (runChain v xs).2 ++ (runChain (runChain v xs).1 ys).2) := by
  unfold runChain
  have h1 : runChainAcc (v, []) (xs ++ ys) = runChainAcc (runChainAcc (v, []) xs) ys := by
    unfold runChainAcc
    exact List.foldl_append ..
  rw [h1]
  have h2 : runChainAcc (v, []) xs =
      ((runChainAcc (v, []) xs).1, (runChainAcc (v, []) xs).2) := rfl
  rw [h2]
  exact runChainAcc_shift ys _ _

/-- C3: chain evaluation is a sequential left fold with per-step failure
isolation — when applying step `t` to the value reached after the prefix
`p1` raises, the fold reports an alert naming `t`'s transformer and
continues from the pre-step value, so the final value is exactly that of
the pipeline with the failing invocation absent, and the report list
carries the failure in order. -/
theorem c3_chain_failure_isolation (v : Value)
    (p1 p2 : List PSTransformerWithArguments) (t : PSTransformerWithArguments)
    (e : String)
    (he : applyTransformer (runChain v p1).1 t = .error e) :
    runChain v (p1 ++ t :: p2) =
      ((runChain (runChain v p1).1 p2).1,
       (runChain v p1).2 ++
         alertMessage t e :: (runChain (runChain v p1).1 p2).2) ∧
    alertMessage t e =
      "Failed to apply transformer " ++ t.Transformer.Name ++
        ". Maybe it previous transformer is bugged - try to remove it.\n\n" ++ e := by
  refine ⟨?_, rfl⟩
  rw [runChain_append]
  have hstep : runChain (runChain v p1).1 (t :: p2) =
      ((runChain (runChain v p1).1 p2).1,
       alertMessage t e :: (runChain (runChain v p1).1 p2).2) := by
    unfold runChain
    rw [runChainAcc_cons]
    rw [show applyTransformer (runChainAcc (v, []) p1).1 t = .error e from he]
    simpa using runChainAcc_shift p2 (runChainAcc (v, []) p1).1 [alertMessage t e]
  rw [hstep]

/-- C3 witness: a three-step pipeline `trim; reverse; upper_case` on the
string `" ab"`; the array-targeted `reverse` raises a type mismatch at
step 2, is reported by name, and the output is that of `trim; upper_case`. -/
theorem c3_chain_failure_isolation_witness :
    applyTransformer (runChain (.str " ab") [⟨trimTransformer, []⟩]).1
        ⟨reverseTransformer, []⟩ =
      .error "applyTransformer: a targeted array transformer cannot be applied on string" ∧
    runChain (.str " ab")
        ([⟨trimTransformer, []⟩] ++ ⟨reverseTransformer, []⟩ :: [⟨upperCaseTransformer, []⟩]) =
      ((runChain (runChain (.str " ab") [⟨trimTransformer, []⟩]).1 [⟨upperCaseTransformer, []⟩]).1,
       (runChain (.str " ab") [⟨trimTransformer, []⟩]).2 ++
         alertMessage ⟨reverseTransformer, []⟩
             "applyTransformer: a targeted array transformer cannot be applied on string" ::
           (runChain (runChain (.str " ab") [⟨trimTransformer, []⟩]).1
             [⟨upperCaseTransformer, []⟩]).2) :=
  ⟨by rfl,
   (c3_chain_failure_isolation (.str " ab") [⟨trimTransformer, []⟩]
     [⟨upperCaseTransformer, []⟩] ⟨reverseTransformer, []⟩ _ (by rfl)).1⟩

/-! ## C1 -/

/-- Position-wise selection semantics of lodash `pullAt`: the result has
one entry per requested index, and wherever the requested index is an
in-range integer the entry is the source element at that index. -/
theorem jsPullAt_select (v : List Value) (idxs : List (Option Int)) :
    (jsPullAt v idxs).length = idxs.length ∧
    ∀ (k : Nat) (i : Int), idxs.getD k none = some i → 0 ≤ i → i.toNat < v.length →
      (jsPullAt v idxs).getD k .undef = v.getD i.toNat .undef := by
  constructor
  · simp [jsPullAt]
  · intro k i hk hi hlen
    induction idxs generalizing k with
    | nil => simp at hk
    | cons o os ih =>
      cases k with
      | zero =>
        simp only [List.getD_cons_zero] at hk
        subst hk
        simp [jsPullAt, not_lt.mpr hi]
      | succ k =>
        simp only [List.getD_cons_succ] at hk
        simpa [jsPullAt] using ih k hk

/-- C1 counterexample: on `["a","b","c","d"]` with argument `"1,3"`,
`slice_array` does not return `["a","c"]` (it returns the pulled
elements `["b","d"]`, because lodash `pullAt` returns the removed
elements, not the remaining ones). -/
theorem c1_slice_array_comma_counterexample :
    sliceArrayFunc [.str "a", .str "b", .str "c", .str "d"] "1,3" ≠
      [.str "a", .str "c"] := by
  decide

/-- C1 (amended): in comma mode (normalized argument with a comma and no
dash) `slice_array` parses each comma-separated part as a decimal
integer and returns the elements *at* exactly those index positions, in
the order listed (lodash `pullAt` returns the pulled elements — the rest
of the copy is discarded); on `["a","b","c","d"]` with `"1,3"` the
result is `["b","d"]`.  In single-index mode it likewise returns the
one-element list holding the element at the parsed index, and returns
`v` unchanged when the index is unparseable. -/
theorem c1_slice_array_comma_selects (v : List Value) (arg : String) :
    (strIncludes (sliceArrayNormalize arg) "-" = false →
      strIncludes (sliceArrayNormalize arg) "," = true →
      sliceArrayFunc v arg =
        jsPullAt v ((jsSplitLiteral (sliceArrayNormalize arg) ",").map jsParseInt)) ∧
    (strIncludes (sliceArrayNormalize arg) "-" = false →
      strIncludes (sliceArrayNormalize arg) "," = false →
      (∀ i, jsParseInt (sliceArrayNormalize arg) = some i →
        sliceArrayFunc v arg = jsPullAt v [some i]) ∧
      (jsParseInt (sliceArrayNormalize arg) = none → sliceArrayFunc v arg = v)) ∧
    sliceArrayFunc [.str "a", .str "b", .str "c", .str "d"] "1,3" =
      [.str "b", .str "d"] := by
  refine ⟨?_, ?_, by decide⟩
  · intro hd hc
    simp [sliceArrayFunc, hd, hc]
  · intro hd hc
    constructor
    · intro i hi
      simp [sliceArrayFunc, hd, hc, hi]
    · intro hi
      simp [sliceArrayFunc, hd, hc, hi]

/-- C1 witness: the comma-mode clause applied to `["a","b","c","d"]`
with `"1,3"`. -/
theorem c1_slice_array_comma_selects_witness :
    sliceArrayFunc [.str "a", .str "b", .str "c", .str "d"] "1,3" =
      jsPullAt [.str "a", .str "b", .str "c", .str "d"]
        ((jsSplitLiteral (sliceArrayNormalize "1,3") ",").map jsParseInt) :=
  (c1_slice_array_comma_selects [.str "a", .str "b", .str "c", .str "d"] "1,3").1
    (by decide) (by decide)

/-! ## C7 -/

/-- C7: `slice_array` in range mode — a normalized argument containing a
dash — takes the half-open JS slice `[start, end)` of the parsed bounds
when the dash split has exactly two parts (with standard slice clamping,
which on in-range bounds is plain drop/take), and returns the array
unchanged otherwise; malformed input never raises: `""`, `"abc"` and
`"1-2-3"` are no-ops on every array, and `"0-2"` on `["a","b","c","d"]`
yields `["a","b"]`. -/
theorem c7_slice_array_range_mode (v : List Value) (arg : String) :
    (strIncludes (sliceArrayNormalize arg) "-" = true →
      (jsSplitLiteral (sliceArrayNormalize arg) "-").length = 2 →
      sliceArrayFunc v arg =
        jsArraySlice v
          (jsParseInt ((jsSplitLiteral (sliceArrayNormalize arg) "-").getD 0 ""))
          (jsParseInt ((jsSplitLiteral (sliceArrayNormalize arg) "-").getD 1 ""))) ∧
    (strIncludes (sliceArrayNormalize arg) "-" = true →
      (jsSplitLiteral (sliceArrayNormalize arg) "-").length ≠ 2 →
      sliceArrayFunc v arg = v) ∧
    (∀ (s e : Int), 0 ≤ s → s ≤ e → e ≤ (v.length : Int) →
      jsArraySlice v (some s) (some e) = (v.drop s.toNat).take (e.toNat - s.toNat)) ∧
    sliceArrayFunc v "" = v ∧
    sliceArrayFunc v "abc" = v ∧
    sliceArrayFunc v "1-2-3" = v ∧
    sliceArrayFunc [.str "a", .str "b", .str "c", .str "d"] "0-2" =
      [.str "a", .str "b"] := by
  refine ⟨?_, ?_, ?_, by rfl, by rfl, by rfl, by decide⟩
  · intro hd hl
    simp [sliceArrayFunc, hd, hl]
  · intro hd hl
    simp [sliceArrayFunc, hd, hl]
  · intro s e hs hse he
    have hsn : ¬ s < 0 := not_lt.mpr hs
    have hen : ¬ e < 0 := not_lt.mpr (le_trans hs hse)
    have h1 : s.toNat ≤ v.length := by omega
    have h2 : e.toNat ≤ v.length := by omega
    simp [jsArraySlice, jsSliceIndex, hsn, hen, Nat.min_eq_left h1, Nat.min_eq_left h2]

/-- C7 witness: the range-mode clause applied to `["a","b","c","d"]`
with `"0-2"`. -/
theorem c7_slice_array_range_mode_witness :
    sliceArrayFunc [.str "a", .str "b", .str "c", .str "d"] "0-2" =
      jsArraySlice [.str "a", .str "b", .str "c", .str "d"]
        (jsParseInt ((jsSplitLiteral (sliceArrayNormalize "0-2") "-").getD 0 ""))
        (jsParseInt ((jsSplitLiteral (sliceArrayNormalize "0-2") "-").getD 1 "")) :=
  (c7_slice_array_range_mode [.str "a", .str "b", .str "c", .str "d"] "0-2").1
    (by decide) (by decide)

/-! ## C2 -/

/-- C2 counterexample: splitting `"axxxb-ayb"` on the wildcard separator
`"a%w%b"` does not produce `["", "-", "yb"]`.  The second separator
occurrence starts at the `'a'` of `"ayb"` and the lazy wildcard must
still reach a literal `'b'`, which only occurs at the final character,
so the match consumes `"ayb"` entirely and the result is
`["", "-", ""]`. -/
theorem c2_wildcard_split_counterexample :
    splitFunc "axxxb-ayb" "a%w%b" ≠ ["", "-", "yb"] := by
  decide

/-- C2 (amended): a separator containing `%w%` is compiled by escaping
the literal text and turning each wildcard into a non-capturing lazy
match of zero or more characters — `"a%w%b"` compiles to
literal `a`, wildcard, literal `b` — and the string is split with the
ECMAScript regex-split algorithm on that pattern.  On `"axxxb-ayb"` the
split matches at both separator occurrences, consuming the minimal span
each time (the first match consumes `"axxxb"`, stopping at the first
`'b'` even though the pattern could match through the whole string);
the second occurrence `"ayb"` extends to the end of the string, so the
result is `["", "-", ""]` rather than `["", "-", "yb"]`. -/
theorem c2_wildcard_split_lazy (v sep : String) :
    (strIncludes sep "%w%" = true →
      splitFunc v sep = jsRegexSplit (wildcardChunks sep) v) ∧
    wildcardChunks "a%w%b" = [.lit ['a'], .wild, .lit ['b']] ∧
    matchChunksLazy (wildcardChunks "a%w%b") "axxxb-ayb".data = some "-ayb".data ∧
    chunksMatchAll (wildcardChunks "a%w%b") "axxxb-ayb".data = true ∧
    splitFunc "axxxb-ayb" "a%w%b" = ["", "-", ""] := by
  refine ⟨?_, by decide, by decide, by decide, by decide⟩
  intro hw
  simp [splitFunc, hw]

/-- C2 witness: the wildcard clause applied to `"axxxb-ayb"` and
`"a%w%b"`. -/
theorem c2_wildcard_split_lazy_witness :
    splitFunc "axxxb-ayb" "a%w%b" =
      jsRegexSplit (wildcardChunks "a%w%b") "axxxb-ayb" :=
  (c2_wildcard_split_lazy "axxxb-ayb" "a%w%b").1 (by decide)

/-! ## C6 -/

/-- The computable string comparison coincides with the lexicographic
strict order on character lists. -/
theorem charListLtB_iff_lex : ∀ (a b : List Char),
    charListLtB a b = true ↔ List.Lex (· < ·) a b := by
  intro a
  induction a with
  | nil =>
    intro b
    cases b with
    | nil =>
      simp only [charListLtB, Bool.false_eq_true, false_iff]
      exact List.Lex.not_nil_right _ _
    | cons c cs =>
      simp only [charListLtB, true_iff]
      exact List.Lex.nil
  | cons x xs ih =>
    intro b
    cases b with
    | nil =>
      simp only [charListLtB, Bool.false_eq_true, false_iff]
      exact List.Lex.not_nil_right _ _
    | cons y ys =>
      simp only [charListLtB]
      by_cases h1 : x < y
      · simp only [h1, if_pos, true_iff]
        exact List.Lex.rel h1
      · by_cases h2 : y < x
        · simp only [h1, if_neg, if_pos h2, not_false_iff, Bool.false_eq_true, false_iff]
          intro hlex
          cases hlex with
          | rel h => exact h1 h
          | cons h => exact lt_irrefl _ h2
        · have hxy : x = y := le_antisymm (not_lt.mp h2) (not_lt.mp h1)
          subst hxy
          simp only [h1, h2, if_neg, not_false_iff]
          rw [ih ys]
          constructor
          · exact fun h => List.Lex.cons h
          · intro hlex
            cases hlex with
            | rel h => exact absurd h h1
            | cons h => exact h

/-- Totality of the JavaScript string comparison used by the default
sort. -/
theorem jsStrLeB_total (x y : String) :
    (!jsStrLtB y x) = true ∨ (!jsStrLtB x y) = true := by
  by_cases h1 : jsStrLtB y x = true
  · right
    by_cases h2 : jsStrLtB x y = true
    · exact absurd ((charListLtB_iff_lex _ _).mp h2)
        (asymm ((charListLtB_iff_lex _ _).mp h1))
    · simp [h2]
  · left
    simp [h1]

/-- Transitivity of the JavaScript string comparison used by the default
sort. -/
theorem jsStrLeB_trans {x y z : String} (h1 : (!jsStrLtB y x) = true)
    (h2 : (!jsStrLtB z y) = true) : (!jsStrLtB z x) = true := by
  simp only [Bool.not_eq_true'] at h1 h2 ⊢
  by_contra h3
  have hlex : List.Lex (· < ·) z.data x.data :=
    (charListLtB_iff_lex _ _).mp (by
      cases h : jsStrLtB z x
      · exact absurd h h3
      · exact h)
  rcases (List.Lex.isOrderConnected (fun a b : Char => a < b)).conn _ y.data _ hlex with h | h
  · exact absurd ((charListLtB_iff_lex _ _).mpr h)
      (by rw [jsStrLtB] at h2; simp [h2])
  · exact absurd ((charListLtB_iff_lex _ _).mpr h)
      (by rw [jsStrLtB] at h1; simp [h1])

instance : IsTotal Value numSortRel :=
  ⟨fun _ _ => Int.le_total _ _⟩

instance : IsTrans Value numSortRel :=
  ⟨fun _ _ _ hab hbc => le_trans hab hbc⟩

instance : IsTotal Value defaultSortRel := by
  constructor
  intro a b
  cases a <;> cases b <;> simp [defaultSortRel, defaultLeB] <;>
    first
      | exact jsStrLeB_total _ _
      | simpa using jsStrLeB_total _ _

instance : IsTrans Value defaultSortRel := by
  constructor
  intro a b c hab hbc
  cases a <;> cases b <;> cases c <;>
    simp_all only [defaultSortRel, defaultLeB] <;>
    first
      | rfl
      | exact jsStrLeB_trans hab hbc
      | (exact absurd hab (by simp))
      | (exact absurd hbc (by simp))

/-- C6: `sort` returns a permutation of its input (the source sorts a
deep copy, leaving the original untouched — the embedding is pure, so
copying shows up as the output being a rearrangement of the input).
When every element parses as an integer it is sorted ascending by
`parseInt` value with stable ties (elements of equal numeric key keep
their original relative order); otherwise it is sorted by the default
JavaScript string order.  `["10","2","1"]` sorts numerically to
`["1","2","10"]` and the mixed `["b","a","10"]` sorts lexicographically
to `["10","a","b"]`. -/
theorem c6_sort_numeric_stable_or_lexicographic (vs : List Value) :
    (sortFunc vs).Perm vs ∧
    ((vs.all fun x => (sortKey x).isSome) = true →
      List.Sorted numSortRel (sortFunc vs) ∧
      ∀ a b, List.Sublist [a, b] vs → sortKey a = sortKey b →
        List.Sublist [a, b] (sortFunc vs)) ∧
    ((vs.all fun x => (sortKey x).isSome) = false →
      List.Sorted defaultSortRel (sortFunc vs)) ∧
    sortFunc [.str "10", .str "2", .str "1"] = [.str "1", .str "2", .str "10"] ∧
    sortFunc [.str "b", .str "a", .str "10"] = [.str "10", .str "a", .str "b"] := by
  refine ⟨?_, ?_, ?_, by decide, by decide⟩
  · by_cases hall : (vs.all fun x => (sortKey x).isSome) = true
    · rw [show sortFunc vs = List.insertionSort numSortRel vs by simp [sortFunc, hall]]
      exact List.perm_insertionSort _ _
    · rw [show sortFunc vs = List.insertionSort defaultSortRel vs by
        simp [sortFunc, Bool.eq_false_iff.mpr hall]]
      exact List.perm_insertionSort _ _
  · intro hall
    rw [show sortFunc vs = List.insertionSort numSortRel vs by simp [sortFunc, hall]]
    refine ⟨List.sorted_insertionSort _ _, ?_⟩
    intro a b hsub hkey
    exact List.pair_sublist_insertionSort
      (by show (sortKey a).getD 0 ≤ (sortKey b).getD 0; rw [hkey]) hsub
  · intro hall
    rw [show sortFunc vs = List.insertionSort defaultSortRel vs by simp [sortFunc, hall]]
    exact List.sorted_insertionSort _ _

/-- C6 witness: the numeric branch applied to `["10","2","1"]`. -/
theorem c6_sort_numeric_stable_or_lexicographic_witness :
    List.Sorted numSortRel (sortFunc [.str "10", .str "2", .str "1"]) :=
  ((c6_sort_numeric_stable_or_lexicographic [.str "10", .str "2", .str "1"]).2.1
    (by decide)).1

/-! ## C8 -/

/-- Element-wise form of C8: mapping `applyTransformer` over a list of
undef-free values on which it acts as `leafMap` yields the `leafMapList`
of the list. -/
theorem applyTransformerList_leafMap (t : PSTransformerWithArguments)
    (vs : List Value)
    (ih : ∀ x ∈ vs, noUndef x = true →
      applyTransformer x t =
        .ok (leafMap (fun s => t.Transformer.Func (.str s) t.Arguments) x))
    (hn : noUndefList vs = true) :
    applyTransformerList vs t =
      .ok (leafMapList (fun s => t.Transformer.Func (.str s) t.Arguments) vs) := by
  induction vs with
  | nil => rfl
  | cons v rest ihl =>
    rw [noUndefList, Bool.and_eq_true] at hn
    rw [applyTransformerList, ih v (by simp) hn.1,
      ihl (fun x hx hx2 => ih x (by simp [hx]) hx2) hn.2]
    rfl

/-- C8: a string-targeted transformer distributes over arbitrary array
nesting — applying it to any value of the engine's data model equals
mapping its `Func` over every leaf string while preserving the array
structure (equivalently, on an array it equals mapping the application
over the elements, recursively through every level). -/
theorem c8_string_transformers_distribute (t : PSTransformerWithArguments)
    (ht : t.Transformer.Target = PSTy.string) :
    ∀ v, noUndef v = true →
      applyTransformer v t =
        .ok (leafMap (fun s => t.Transformer.Func (.str s) t.Arguments) v) := by
  intro v
  exact @Value.inductionOn
    (fun v => noUndef v = true →
      applyTransformer v t =
        .ok (leafMap (fun s => t.Transformer.Func (.str s) t.Arguments) v))
    (fun s _ => by
      rw [applyTransformer, leafMap]
      simp [ht])
    (fun h => by simp [noUndef] at h)
    (fun vs ih hn => by
      rw [applyTransformer_arr, if_pos ht, leafMap]
      rw [applyTransformerList_leafMap t vs ih (by rw [noUndef] at hn; exact hn)])
    v

/-- C8 witness: `upper_case` applied to the nested array
`[["a"],["b","c"]]` upper-cases every leaf and keeps the structure. -/
theorem c8_string_transformers_distribute_witness :
    applyTransformer (.arr [.arr [.str "a"], .arr [.str "b", .str "c"]])
        ⟨upperCaseTransformer, []⟩ =
      .ok (leafMap
        (fun s => upperCaseTransformer.Func (.str s) [])
        (.arr [.arr [.str "a"], .arr [.str "b", .str "c"]])) :=
  c8_string_transformers_distribute ⟨upperCaseTransformer, []⟩ rfl
    (.arr [.arr [.str "a"], .arr [.str "b", .str "c"]]) (by decide)

/-! ## C4 -/

/-- Hex digits emitted by the stringifier decode to their value. -/
theorem hexVal_hexDigitChar : ∀ x : Nat, x < 16 → hexVal (hexDigitChar x) = some x := by
  decide

/-- `parseJStringBody` undoes `escapeChar`, one character at a time. -/
theorem parseJStringBody_escapeChar (c : Char) (rest : List Char) :
    parseJStringBody (escapeChar c ++ rest) =
      (parseJStringBody rest).map (fun p => (c :: p.1, p.2)) := by
  by_cases h1 : c = '\"'
  · subst h1
    rw [show escapeChar '\"' ++ rest = '\\' :: '\"' :: rest from rfl]
    conv_lhs => unfold parseJStringBody
    rw [if_neg (by decide), if_pos rfl]
    dsimp only
    rw [if_neg (by decide), show simpleUnescape '\"' = some '\"' from by decide]
  by_cases h2 : c = '\\'
  · subst h2
    rw [show escapeChar '\\' ++ rest = '\\' :: '\\' :: rest from rfl]
    conv_lhs => unfold parseJStringBody
    rw [if_neg (by decide), if_pos rfl]
    dsimp only
    rw [if_neg (by decide), show simpleUnescape '\\' = some '\\' from by decide]
  by_cases h3 : c = '\x08'
  · subst h3
    rw [show escapeChar '\x08' ++ rest = '\\' :: 'b' :: rest from rfl]
    conv_lhs => unfold parseJStringBody
    rw [if_neg (by decide), if_pos rfl]
    dsimp only
    rw [if_neg (by decide), show simpleUnescape 'b' = some '\x08' from by decide]
  by_cases h4 : c = '\x0c'
  · subst h4
    rw [show escapeChar '\x0c' ++ rest = '\\' :: 'f' :: rest from rfl]
    conv_lhs => unfold parseJStringBody
    rw [if_neg (by decide), if_pos rfl]
    dsimp only
    rw [if_neg (by decide), show simpleUnescape 'f' = some '\x0c' from by decide]
  by_cases h5 : c = '\n'
  · subst h5
    rw [show escapeChar '\n' ++ rest = '\\' :: 'n' :: rest from rfl]
    conv_lhs => unfold parseJStringBody
    rw [if_neg (by decide), if_pos rfl]
    dsimp only
    rw [if_neg (by decide), show simpleUnescape 'n' = some '\n' from by decide]
  by_cases h6 : c = '\r'
  · subst h6
    rw [show escapeChar '\r' ++ rest = '\\' :: 'r' :: rest from rfl]
    conv_lhs => unfold parseJStringBody
    rw [if_neg (by decide), if_pos rfl]
    dsimp only
    rw [if_neg (by decide), show simpleUnescape 'r' = some '\r' from by decide]
  by_cases h7 : c = '\t'
  · subst h7
    rw [show escapeChar '\t' ++ rest = '\\' :: 't' :: rest from rfl]
    conv_lhs => unfold parseJStringBody
    rw [if_neg (by decide), if_pos rfl]
    dsimp only
    rw [if_neg (by decide), show simpleUnescape 't' = some '\t' from by decide]
  by_cases h8 : c.toNat < 32
  · rw [show escapeChar c ++ rest =
        '\\' :: 'u' :: '0' :: '0' :: hexDigitChar (c.toNat / 16) ::
          hexDigitChar (c.toNat % 16) :: rest from by
      simp [escapeChar, h1, h2, h3, h4, h5, h6, h7, h8]]
    conv_lhs => unfold parseJStringBody
    rw [if_neg (by decide), if_pos rfl]
    dsimp only
    rw [if_pos rfl]
    rw [show hexVal4 '0' '0' (hexDigitChar (c.toNat / 16)) (hexDigitChar (c.toNat % 16)) =
        some c.toNat from by
      rw [hexVal4,
        hexVal_hexDigitChar (c.toNat / 16)
          (by rw [Nat.div_lt_iff_lt_mul (by norm_num)]; omega),
        hexVal_hexDigitChar (c.toNat % 16) (Nat.mod_lt _ (by norm_num)),
        show hexVal '0' = some 0 from rfl]
      dsimp only
      congr 1
      omega]
    dsimp only
    rw [show codePointChar c.toNat = c from Char.ofNat_toNat c]
  · rw [show escapeChar c ++ rest = c :: rest from by
      simp [escapeChar, h1, h2, h3, h4, h5, h6, h7, h8]]
    conv_lhs => unfold parseJStringBody
    rw [if_neg h1, if_neg h2, if_neg h8]

/-- `parseJStringBody` undoes the stringifier's escaping of a whole
string body. -/
theorem parseJStringBody_quote (s : List Char) (rest : List Char) :
    parseJStringBody (s.flatMap escapeChar ++ '"' :: rest) = some (s, rest) := by
  induction s with
  | nil =>
    rw [show ([] : List Char).flatMap escapeChar ++ '"' :: rest = '"' :: rest from rfl]
    conv_lhs => unfold parseJStringBody
    rw [if_pos rfl]
  | cons c cs ih =>
    rw [List.flatMap_cons, List.append_assoc, parseJStringBody_escapeChar, ih]
    rfl

/-- A parse step on a quoted string returns the string value. -/
theorem parseJsonVal_str (s : String) (rest : List Char) (fuel : Nat) :
    parseJsonVal (fuel + 1) (quoteJsonString s ++ rest) = some (.str s, rest) := by
  rw [show quoteJsonString s ++ rest =
      '"' :: (s.data.flatMap escapeChar ++ '"' :: rest) from by
    simp [quoteJsonString]]
  conv_lhs => unfold parseJsonVal
  rw [show skipJsonWs ('"' :: (s.data.flatMap escapeChar ++ '"' :: rest)) =
      '"' :: (s.data.flatMap escapeChar ++ '"' :: rest) from by
    rw [skipJsonWs, List.dropWhile_cons, if_neg (by decide)]]
  dsimp only
  rw [if_neg (by decide), if_neg (by decide), if_pos rfl, parseJStringBody_quote]
  rfl

/-- Parsing the comma-separated rendering of a non-empty list of string
arguments, up to the closing bracket. -/
theorem parseJsonItems_strings (args : List String) :
    ∀ (a0 : String) (rest : List Char) (fuel : Nat), args.length + 2 ≤ fuel →
      parseJsonItems fuel (jsonStringifyItems ((a0 :: args).map .str) ++ ']' :: rest) =
        some ((a0 :: args).map .str, rest) := by
  induction args with
  | nil =>
    intro a0 rest fuel hf
    match fuel, hf with
    | f + 2, _ =>
      rw [show jsonStringifyItems ([a0].map Json.str) = quoteJsonString a0 from rfl]
      conv_lhs => unfold parseJsonItems
      rw [parseJsonVal_str]
      dsimp only
      rw [show skipJsonWs (']' :: rest) = ']' :: rest from by
        rw [skipJsonWs, List.dropWhile_cons, if_neg (by decide)]]
      dsimp only
      rw [if_neg (by decide), if_pos rfl]
      rfl
  | cons a1 args ih =>
    intro a0 rest fuel hf
    match fuel, hf with
    | f + 2, hf2 =>
      rw [show jsonStringifyItems ((a0 :: a1 :: args).map Json.str) ++ ']' :: rest =
          quoteJsonString a0 ++
            ',' :: (jsonStringifyItems ((a1 :: args).map Json.str) ++ ']' :: rest) from by
        rw [show (a0 :: a1 :: args).map Json.str =
            Json.str a0 :: (a1 :: args).map Json.str from rfl]
        rw [show jsonStringifyItems (Json.str a0 :: (a1 :: args).map Json.str) =
            jsonStringify (Json.str a0) ++ ',' :: jsonStringifyItems ((a1 :: args).map Json.str) from by
          cases args <;> rfl]
        simp [jsonStringify]]
      conv_lhs => unfold parseJsonItems
      rw [parseJsonVal_str]
      dsimp only
      rw [show skipJsonWs (',' :: (jsonStringifyItems ((a1 :: args).map Json.str) ++ ']' :: rest)) =
          ',' :: (jsonStringifyItems ((a1 :: args).map Json.str) ++ ']' :: rest) from by
        rw [skipJsonWs, List.dropWhile_cons, if_neg (by decide)]]
      dsimp only
      rw [if_pos rfl]
      rw [ih a1 rest (f + 1) (by simp at hf2 ⊢; omega)]
      rfl

/-- Parsing the rendering of a JSON array of strings (the `a` field of
an encoded record). -/
theorem parseJsonVal_strArr (args : List String) (rest : List Char) (fuel : Nat)
    (hf : args.length + 2 ≤ fuel) :
    parseJsonVal fuel (jsonStringify (.arr (args.map .str)) ++ rest) =
      some (.arr (args.map .str), rest) := by
  match fuel, hf with
  | f + 1, hf2 =>
    cases args with
    | nil =>
      rw [show jsonStringify (Json.arr ([].map Json.str)) ++ rest = '[' :: ']' :: rest from rfl]
      conv_lhs => unfold parseJsonVal
      rw [show skipJsonWs ('[' :: ']' :: rest) = '[' :: ']' :: rest from by
        rw [skipJsonWs, List.dropWhile_cons, if_neg (by decide)]]
      dsimp only
      rw [if_neg (by decide), if_pos rfl]
      rw [show skipJsonWs (']' :: rest) = ']' :: rest from by
        rw [skipJsonWs, List.dropWhile_cons, if_neg (by decide)]]
      dsimp only
      rw [if_pos rfl]
      rfl
    | cons a0 args1 =>
      rw [show jsonStringify (Json.arr ((a0 :: args1).map Json.str)) ++ rest =
          '[' :: (jsonStringifyItems ((a0 :: args1).map Json.str) ++ ']' :: rest) from by
        rw [show jsonStringify (Json.arr ((a0 :: args1).map Json.str)) =
            '[' :: jsonStringifyItems ((a0 :: args1).map Json.str) ++ [']'] from rfl]
        simp]
      conv_lhs => unfold parseJsonVal
      rw [show skipJsonWs ('[' :: (jsonStringifyItems ((a0 :: args1).map Json.str) ++ ']' :: rest)) =
          '[' :: (jsonStringifyItems ((a0 :: args1).map Json.str) ++ ']' :: rest) from by
        rw [skipJsonWs, List.dropWhile_cons, if_neg (by decide)]]
      dsimp only
      rw [if_neg (by decide), if_pos rfl]
      rw [show jsonStringifyItems ((a0 :: args1).map Json.str) ++ ']' :: rest =
          '"' :: ((a0.data.flatMap escapeChar ++ ['"']) ++
            ((match args1 with
              | [] => ([] : List Char)
              | _ :: _ => ',' :: jsonStringifyItems (args1.map Json.str)) ++ ']' :: rest)) from by
        cases args1 <;> simp [jsonStringifyItems, jsonStringify, quoteJsonString]]
      rw [show skipJsonWs ('"' :: ((a0.data.flatMap escapeChar ++ ['"']) ++
            ((match args1 with
              | [] => ([] : List Char)
              | _ :: _ => ',' :: jsonStringifyItems (args1.map Json.str)) ++ ']' :: rest))) =
          '"' :: ((a0.data.flatMap escapeChar ++ ['"']) ++
            ((match args1 with
              | [] => ([] : List Char)
              | _ :: _ => ',' :: jsonStringifyItems (args1.map Json.str)) ++ ']' :: rest)) from by
        rw [skipJsonWs, List.dropWhile_cons, if_neg (by decide)]]
      dsimp only
      rw [show ('"' : Char) = '"' from rfl]
      rw [show ('"' :: ((a0.data.flatMap escapeChar ++ ['"']) ++
            ((match args1 with
              | [] => ([] : List Char)
              | _ :: _ => ',' :: jsonStringifyItems (args1.map Json.str)) ++ ']' :: rest))) =
          jsonStringifyItems ((a0 :: args1).map Json.str) ++ ']' :: rest from by
        cases args1 <;> simp [jsonStringifyItems, jsonStringify, quoteJsonString]]
      rw [if_neg (by decide)]
      rw [parseJsonItems_strings args1 a0 rest f (by simp at hf2 ⊢; omega)]
      rfl

theorem quoteJsonString_i : quoteJsonString "i" = ['"', 'i', '"'] := rfl

theorem quoteJsonString_a : quoteJsonString "a" = ['"', 'a', '"'] := rfl

/-- Parsing the rendering of one encoded record `{"i": id, "a": [args]}`. -/
theorem parseJsonVal_record (id : String) (args : List String) (rest : List Char) (fuel : Nat)
    (hf : args.length + 5 ≤ fuel) :
    parseJsonVal fuel
        (jsonStringify (.obj [("i", .str id), ("a", .arr (args.map .str))]) ++ rest) =
      some (.obj [("i", .str id), ("a", .arr (args.map .str))], rest) := by
  match fuel, hf with
  | g + 5, hf2 =>
    rw [show jsonStringify
          (Json.obj [("i", .str id), ("a", .arr (args.map .str))]) ++ rest =
        '{' :: '"' :: 'i' :: '"' :: ':' :: (quoteJsonString id ++
          ',' :: '"' :: 'a' :: '"' :: ':' ::
            (jsonStringify (.arr (args.map .str)) ++ '}' :: rest)) from by
      rw [show jsonStringify (Json.obj [("i", .str id), ("a", .arr (args.map .str))]) =
          '{' :: jsonStringifyMembers [("i", .str id), ("a", .arr (args.map .str))] ++ ['}']
        from rfl]
      rw [show jsonStringifyMembers [("i", .str id), ("a", .arr (args.map .str))] =
          quoteJsonString "i" ++ ':' :: jsonStringify (.str id) ++
            ',' :: jsonStringifyMembers [("a", .arr (args.map .str))] from rfl]
      rw [show jsonStringifyMembers [("a", Json.arr (args.map .str))] =
          quoteJsonString "a" ++ ':' :: jsonStringify (.arr (args.map .str)) from rfl]
      rw [quoteJsonString_i, quoteJsonString_a]
      simp [jsonStringify]]
    conv_lhs => unfold parseJsonVal
    rw [show skipJsonWs ('{' :: '"' :: 'i' :: '"' :: ':' :: (quoteJsonString id ++
          ',' :: '"' :: 'a' :: '"' :: ':' ::
            (jsonStringify (.arr (args.map .str)) ++ '}' :: rest))) =
        '{' :: '"' :: 'i' :: '"' :: ':' :: (quoteJsonString id ++
          ',' :: '"' :: 'a' :: '"' :: ':' ::
            (jsonStringify (.arr (args.map .str)) ++ '}' :: rest)) from by
      rw [skipJsonWs, List.dropWhile_cons, if_neg (by decide)]]
    dsimp only
    rw [if_pos rfl]
    rw [show skipJsonWs ('"' :: 'i' :: '"' :: ':' :: (quoteJsonString id ++
          ',' :: '"' :: 'a' :: '"' :: ':' ::
            (jsonStringify (.arr (args.map .str)) ++ '}' :: rest))) =
        '"' :: 'i' :: '"' :: ':' :: (quoteJsonString id ++
          ',' :: '"' :: 'a' :: '"' :: ':' ::
            (jsonStringify (.arr (args.map .str)) ++ '}' :: rest)) from by
      rw [skipJsonWs, List.dropWhile_cons, if_neg (by decide)]]
    dsimp only
    rw [if_neg (by decide)]
    conv_lhs => unfold parseJsonMembers
    rw [show skipJsonWs ('"' :: 'i' :: '"' :: ':' :: (quoteJsonString id ++
          ',' :: '"' :: 'a' :: '"' :: ':' ::
            (jsonStringify (.arr (args.map .str)) ++ '}' :: rest))) =
        '"' :: 'i' :: '"' :: ':' :: (quoteJsonString id ++
          ',' :: '"' :: 'a' :: '"' :: ':' ::
            (jsonStringify (.arr (args.map .str)) ++ '}' :: rest)) from by
      rw [skipJsonWs, List.dropWhile_cons, if_neg (by decide)]]
    dsimp only
    rw [if_pos rfl]
    rw [show ('i' :: '"' :: ':' :: (quoteJsonString id ++
          ',' :: '"' :: 'a' :: '"' :: ':' ::
            (jsonStringify (.arr (args.map .str)) ++ '\x7d' :: rest))) =
        ("i".data.flatMap escapeChar ++ '"' :: (':' :: (quoteJsonString id ++
          ',' :: '"' :: 'a' :: '"' :: ':' ::
            (jsonStringify (.arr (args.map .str)) ++ '}' :: rest)))) from rfl]
    rw [parseJStringBody_quote]
    dsimp only
    rw [show skipJsonWs (':' :: (quoteJsonString id ++
          ',' :: '"' :: 'a' :: '"' :: ':' ::
            (jsonStringify (.arr (args.map .str)) ++ '}' :: rest))) =
        ':' :: (quoteJsonString id ++
          ',' :: '"' :: 'a' :: '"' :: ':' ::
            (jsonStringify (.arr (args.map .str)) ++ '}' :: rest)) from by
      rw [skipJsonWs, List.dropWhile_cons, if_neg (by decide)]]
    dsimp only
    rw [if_pos rfl]
    rw [show (quoteJsonString id ++
          ',' :: '"' :: 'a' :: '"' :: ':' ::
            (jsonStringify (.arr (args.map .str)) ++ '}' :: rest)) =
        (quoteJsonString id ++
          (',' :: '"' :: 'a' :: '"' :: ':' ::
            (jsonStringify (.arr (args.map .str)) ++ '}' :: rest))) from rfl]
    rw [parseJsonVal_str]
    dsimp only
    rw [show skipJsonWs (',' :: '"' :: 'a' :: '"' :: ':' ::
            (jsonStringify (.arr (args.map .str)) ++ '}' :: rest)) =
        ',' :: '"' :: 'a' :: '"' :: ':' ::
            (jsonStringify (.arr (args.map .str)) ++ '}' :: rest) from by
      rw [skipJsonWs, List.dropWhile_cons, if_neg (by decide)]]
    dsimp only
    rw [if_pos rfl]
    conv_lhs => unfold parseJsonMembers
    rw [show skipJsonWs ('"' :: 'a' :: '"' :: ':' ::
            (jsonStringify (.arr (args.map .str)) ++ '}' :: rest)) =
        '"' :: 'a' :: '"' :: ':' ::
            (jsonStringify (.arr (args.map .str)) ++ '}' :: rest) from by
      rw [skipJsonWs, List.dropWhile_cons, if_neg (by decide)]]
    dsimp only
    rw [if_pos rfl]
    rw [show ('a' :: '"' :: ':' ::
            (jsonStringify (.arr (args.map .str)) ++ '\x7d' :: rest)) =
        ("a".data.flatMap escapeChar ++ '"' :: (':' ::
            (jsonStringify (.arr (args.map .str)) ++ '}' :: rest))) from rfl]
    rw [parseJStringBody_quote]
    dsimp only
    rw [show skipJsonWs (':' :: (jsonStringify (.arr (args.map .str)) ++ '}' :: rest)) =
        ':' :: (jsonStringify (.arr (args.map .str)) ++ '}' :: rest) from by
      rw [skipJsonWs, List.dropWhile_cons, if_neg (by decide)]]
    dsimp only
    rw [if_pos rfl]
    rw [parseJsonVal_strArr args ('}' :: rest) (g + 2) (by omega)]
    dsimp only
    rw [show skipJsonWs ('}' :: rest) = '}' :: rest from by
      rw [skipJsonWs, List.dropWhile_cons, if_neg (by decide)]]
    dsimp only
    rw [if_neg (by decide), if_pos rfl]
    rfl

/-- One encoded record as a `Json` value. -/
def recOf (t : PSTransformerWithArguments) : Json :=
  .obj [("i", .str t.Transformer.ID), ("a", .arr (t.Arguments.map .str))]

theorem encodeTree_eq_map_recOf (ts : List PSTransformerWithArguments) :
    encodeTree ts = .arr (ts.map recOf) := rfl

/-- Parser fuel sufficient for a list of encoded records. -/
def recordsFuel : List PSTransformerWithArguments → Nat
  | [] => 1
  | t :: ts => t.Arguments.length + 6 + recordsFuel ts

theorem parseJsonVal_recOf (t : PSTransformerWithArguments) (rest : List Char) (fuel : Nat)
    (hf : t.Arguments.length + 5 ≤ fuel) :
    parseJsonVal fuel (jsonStringify (recOf t) ++ rest) = some (recOf t, rest) :=
  parseJsonVal_record t.Transformer.ID t.Arguments rest fuel hf

/-- Parsing a comma-separated rendering of a non-empty list of encoded
records, up to the closing bracket. -/
theorem parseJsonItems_recordList (ts : List PSTransformerWithArguments) :
    ∀ (t0 : PSTransformerWithArguments) (rest : List Char) (fuel : Nat),
      recordsFuel (t0 :: ts) ≤ fuel →
      parseJsonItems fuel (jsonStringifyItems ((t0 :: ts).map recOf) ++ ']' :: rest) =
        some ((t0 :: ts).map recOf, rest) := by
  induction ts with
  | nil =>
    intro t0 rest fuel hf
    obtain ⟨f, rfl⟩ : ∃ f, fuel = f + 1 := ⟨fuel - 1, by simp [recordsFuel] at hf; omega⟩
    have hf2 := hf
    · rw [show jsonStringifyItems ([t0].map recOf) = jsonStringify (recOf t0) from rfl]
      conv_lhs => unfold parseJsonItems
      rw [parseJsonVal_recOf t0 (']' :: rest) f
        (by simp [recordsFuel] at hf2; omega)]
      dsimp only
      rw [show skipJsonWs (']' :: rest) = ']' :: rest from by
        rw [skipJsonWs, List.dropWhile_cons, if_neg (by decide)]]
      dsimp only
      rw [if_neg (by decide), if_pos rfl]
      rfl
  | cons t1 ts ih =>
    intro t0 rest fuel hf
    obtain ⟨f, rfl⟩ : ∃ f, fuel = f + 1 := ⟨fuel - 1, by simp [recordsFuel] at hf; omega⟩
    have hf2 := hf
    · rw [show jsonStringifyItems ((t0 :: t1 :: ts).map recOf) ++ ']' :: rest =
          jsonStringify (recOf t0) ++
            (',' :: (jsonStringifyItems ((t1 :: ts).map recOf) ++ ']' :: rest)) from by
        rw [show (t0 :: t1 :: ts).map recOf = recOf t0 :: (t1 :: ts).map recOf from rfl]
        rw [show jsonStringifyItems (recOf t0 :: (t1 :: ts).map recOf) =
            jsonStringify (recOf t0) ++ ',' :: jsonStringifyItems ((t1 :: ts).map recOf) from by
          cases ts <;> rfl]
        simp]
      conv_lhs => unfold parseJsonItems
      rw [parseJsonVal_recOf t0 _ f (by simp [recordsFuel] at hf2; omega)]
      dsimp only
      rw [show skipJsonWs (',' :: (jsonStringifyItems ((t1 :: ts).map recOf) ++ ']' :: rest)) =
          ',' :: (jsonStringifyItems ((t1 :: ts).map recOf) ++ ']' :: rest) from by
        rw [skipJsonWs, List.dropWhile_cons, if_neg (by decide)]]
      dsimp only
      rw [if_pos rfl]
      rw [ih t1 rest f (by simp [recordsFuel] at hf2 ⊢; omega)]
      rfl

/-- Parsing the rendering of the whole encoded record array. -/
theorem parseJsonVal_encodeTree (ts : List PSTransformerWithArguments) (rest : List Char)
    (fuel : Nat) (hf : recordsFuel ts + 1 ≤ fuel) :
    parseJsonVal fuel (jsonStringify (encodeTree ts) ++ rest) = some (encodeTree ts, rest) := by
  obtain ⟨f, rfl⟩ : ∃ f, fuel = f + 1 := ⟨fuel - 1, by omega⟩
  cases ts with
  | nil =>
    rw [show jsonStringify (encodeTree []) ++ rest = '[' :: ']' :: rest from rfl]
    conv_lhs => unfold parseJsonVal
    rw [show skipJsonWs ('[' :: ']' :: rest) = '[' :: ']' :: rest from by
      rw [skipJsonWs, List.dropWhile_cons, if_neg (by decide)]]
    dsimp only
    rw [if_neg (by decide), if_pos rfl]
    rw [show skipJsonWs (']' :: rest) = ']' :: rest from by
      rw [skipJsonWs, List.dropWhile_cons, if_neg (by decide)]]
    dsimp only
    rw [if_pos rfl]
    rfl
  | cons t0 ts1 =>
    rw [show jsonStringify (encodeTree (t0 :: ts1)) ++ rest =
        '[' :: (jsonStringifyItems ((t0 :: ts1).map recOf) ++ ']' :: rest) from by
      rw [encodeTree_eq_map_recOf]
      rw [show jsonStringify (Json.arr ((t0 :: ts1).map recOf)) =
          '[' :: jsonStringifyItems ((t0 :: ts1).map recOf) ++ [']'] from rfl]
      simp]
    conv_lhs => unfold parseJsonVal
    rw [show skipJsonWs ('[' :: (jsonStringifyItems ((t0 :: ts1).map recOf) ++ ']' :: rest)) =
        '[' :: (jsonStringifyItems ((t0 :: ts1).map recOf) ++ ']' :: rest) from by
      rw [skipJsonWs, List.dropWhile_cons, if_neg (by decide)]]
    dsimp only
    rw [if_neg (by decide), if_pos rfl]
    rw [show jsonStringifyItems ((t0 :: ts1).map recOf) ++ ']' :: rest =
        '{' :: (jsonStringifyMembers
            [("i", .str t0.Transformer.ID), ("a", .arr (t0.Arguments.map .str))] ++
          '}' :: ((match ts1 with
            | [] => ([] : List Char)
            | _ :: _ => ',' :: jsonStringifyItems (ts1.map recOf)) ++ ']' :: rest)) from by
      cases ts1 <;> simp [jsonStringifyItems, jsonStringify, recOf]]
    rw [show skipJsonWs ('{' :: (jsonStringifyMembers
            [("i", .str t0.Transformer.ID), ("a", .arr (t0.Arguments.map .str))] ++
          '}' :: ((match ts1 with
            | [] => ([] : List Char)
            | _ :: _ => ',' :: jsonStringifyItems (ts1.map recOf)) ++ ']' :: rest))) =
        '{' :: (jsonStringifyMembers
            [("i", .str t0.Transformer.ID), ("a", .arr (t0.Arguments.map .str))] ++
          '}' :: ((match ts1 with
            | [] => ([] : List Char)
            | _ :: _ => ',' :: jsonStringifyItems (ts1.map recOf)) ++ ']' :: rest)) from by
      rw [skipJsonWs, List.dropWhile_cons, if_neg (by decide)]]
    dsimp only
    rw [if_neg (by decide)]
    rw [show ('{' :: (jsonStringifyMembers
            [("i", .str t0.Transformer.ID), ("a", .arr (t0.Arguments.map .str))] ++
          '}' :: ((match ts1 with
            | [] => ([] : List Char)
            | _ :: _ => ',' :: jsonStringifyItems (ts1.map recOf)) ++ ']' :: rest))) =
        jsonStringifyItems ((t0 :: ts1).map recOf) ++ ']' :: rest from by
      cases ts1 <;> simp [jsonStringifyItems, jsonStringify, recOf]]
    rw [parseJsonItems_recordList ts1 t0 rest f (by omega)]
    rfl

/-- Each argument costs at least one rendered character (quotes around
it, commas between). -/
theorem args_len_le_items (args : List String) :
    args.length ≤ (jsonStringifyItems (args.map Json.str)).length + 1 := by
  induction args with
  | nil => simp [jsonStringifyItems]
  | cons a as ih =>
    cases as with
    | nil =>
      simp [jsonStringifyItems, jsonStringify, quoteJsonString]
    | cons b bs =>
      rw [show jsonStringifyItems ((a :: b :: bs).map Json.str) =
          jsonStringify (Json.str a) ++ ',' :: jsonStringifyItems ((b :: bs).map Json.str)
        from rfl]
      simp only [jsonStringify, quoteJsonString, List.length_append, List.length_cons,
        List.length_map] at ih ⊢
      omega

/-- A record's rendering is longer than the fuel it needs. -/
theorem recOf_len_lb (t : PSTransformerWithArguments) :
    t.Arguments.length + 6 ≤ (jsonStringify (recOf t)).length := by
  have h := args_len_le_items t.Arguments
  rw [show jsonStringify (recOf t) =
      '{' :: ('"' :: 'i' :: '"' :: ':' :: (quoteJsonString t.Transformer.ID ++
        ',' :: '"' :: 'a' :: '"' :: ':' ::
          ('[' :: jsonStringifyItems (t.Arguments.map Json.str) ++ [']']))) ++ ['}'] from by
    rw [show jsonStringify (recOf t) =
        '{' :: jsonStringifyMembers
          [("i", .str t.Transformer.ID), ("a", .arr (t.Arguments.map .str))] ++ ['}']
      from rfl]
    rw [show jsonStringifyMembers
          [("i", .str t.Transformer.ID), ("a", .arr (t.Arguments.map .str))] =
        quoteJsonString "i" ++ ':' :: jsonStringify (.str t.Transformer.ID) ++
          ',' :: (quoteJsonString "a" ++ ':' :: jsonStringify (.arr (t.Arguments.map .str)))
      from by rfl]
    rw [quoteJsonString_i, quoteJsonString_a]
    simp [jsonStringify]]
  simp only [List.length_append, List.length_cons] at h ⊢
  omega

/-- The records' fuel is bounded by the rendered length. -/
theorem recordsFuel_le_items (ts : List PSTransformerWithArguments) :
    recordsFuel ts ≤ (jsonStringifyItems (ts.map recOf)).length + 1 := by
  induction ts with
  | nil => simp [recordsFuel, jsonStringifyItems]
  | cons t ts ih =>
    have h := recOf_len_lb t
    cases ts with
    | nil =>
      simp only [recordsFuel, List.map_cons, List.map_nil, jsonStringifyItems]
      omega
    | cons t1 ts2 =>
      rw [show jsonStringifyItems ((t :: t1 :: ts2).map recOf) =
          jsonStringify (recOf t) ++ ',' :: jsonStringifyItems ((t1 :: ts2).map recOf)
        from rfl]
      simp only [recordsFuel, List.length_append, List.length_cons] at ih ⊢
      omega

/-- `JSON.parse` inverts `JSON.stringify` on every encoded token: the
default fuel suffices. -/
theorem jsonParse_encodeATL (ts : List PSTransformerWithArguments) :
    jsonParse (encodeATL ts) = some (encodeTree ts) := by
  unfold jsonParse encodeATL
  rw [show (String.mk (jsonStringify (encodeTree ts))).data = jsonStringify (encodeTree ts)
    from rfl]
  rw [show jsonStringify (encodeTree ts) = jsonStringify (encodeTree ts) ++ []
    from (List.append_nil _).symm]
  rw [parseJsonVal_encodeTree ts [] _ (by
    have h1 := recordsFuel_le_items ts
    have h2 : (jsonStringify (encodeTree ts)).length =
        (jsonStringifyItems (ts.map recOf)).length + 2 := by
      rw [encodeTree_eq_map_recOf]
      rw [show jsonStringify (Json.arr (ts.map recOf)) =
          '[' :: jsonStringifyItems (ts.map recOf) ++ [']'] from rfl]
      simp
    simp only [List.append_nil]
    omega)]
  rfl

theorem objGet_recOf_i (t : PSTransformerWithArguments) :
    objGet (recOf t) "i" = some (.str t.Transformer.ID) := rfl

theorem objGet_recOf_a (t : PSTransformerWithArguments) :
    objGet (recOf t) "a" = some (.arr (t.Arguments.map .str)) := rfl

theorem all_jsonIsStr_map (args : List String) :
    (args.map Json.str).all jsonIsStr = true := by
  induction args with
  | nil => rfl
  | cons a as ih => simp [jsonIsStr, ih]

theorem map_jsonArgString_map_str (args : List String) :
    (args.map Json.str).map jsonArgString = args := by
  induction args with
  | nil => rfl
  | cons a as ih => simp [jsonArgString] at ih ⊢; exact ih

/-- The catalog lookup by encoded ID recovers exactly the original
catalog entry (all ten IDs are distinct). -/
theorem find_by_id (tf : PSTransformer) (htf : tf ∈ PSTransformers) :
    PSTransformers.find? (fun pst => jsonIdMatches (.str tf.ID) pst.ID) = some tf := by
  simp only [PSTransformers, List.mem_cons, List.not_mem_nil, or_false] at htf
  rcases htf with rfl | rfl | rfl | rfl | rfl | rfl | rfl | rfl | rfl | rfl <;> rfl

/-- The decode loop inverts the record encoding when every transformer
is catalog-known. -/
theorem decodeATLItems_map_recOf (ts : List PSTransformerWithArguments)
    (h : ∀ t ∈ ts, t.Transformer ∈ PSTransformers) :
    decodeATLItems (ts.map recOf) = .ok ts := by
  induction ts with
  | nil => rfl
  | cons t ts ih =>
    rw [show (t :: ts).map recOf = recOf t :: ts.map recOf from rfl]
    conv_lhs => unfold decodeATLItems
    rw [objGet_recOf_i, objGet_recOf_a]
    dsimp only
    rw [if_pos (all_jsonIsStr_map t.Arguments)]
    rw [find_by_id t.Transformer (h t (by simp))]
    dsimp only
    rw [ih (fun t2 ht2 => h t2 (by simp [ht2]))]
    dsimp only
    rw [map_jsonArgString_map_str]

/-- C4: for every pipeline whose invocations reference catalog-known
transformer definitions and whose arguments are strings,
`decodeATL (encodeATL p)` succeeds and equals `p` (round-trip law). -/
theorem c4_encode_decode_roundtrip (ts : List PSTransformerWithArguments)
    (h : ∀ t ∈ ts, t.Transformer ∈ PSTransformers) :
    decodeATL (encodeATL ts) = .ok ts := by
  unfold decodeATL
  rw [jsonParse_encodeATL]
  rw [show encodeTree ts = Json.arr (ts.map recOf) from rfl]
  dsimp only
  exact decodeATLItems_map_recOf ts h

theorem c4_encode_decode_roundtrip_witness :
    (∀ t ∈ [(⟨splitTransformer, [","]⟩ : PSTransformerWithArguments),
        ⟨sortTransformer, []⟩], t.Transformer ∈ PSTransformers) ∧
      decodeATL (encodeATL [(⟨splitTransformer, [","]⟩ : PSTransformerWithArguments),
        ⟨sortTransformer, []⟩]) =
        .ok [⟨splitTransformer, [","]⟩, ⟨sortTransformer, []⟩] := by
  have hm : ∀ t ∈ [(⟨splitTransformer, [","]⟩ : PSTransformerWithArguments),
      ⟨sortTransformer, []⟩], t.Transformer ∈ PSTransformers := by
    intro t ht
    simp only [List.mem_cons, List.not_mem_nil, or_false] at ht
    rcases ht with rfl | rfl
    · exact List.mem_cons_self _ _
    · simp [PSTransformers]
  exact ⟨hm, c4_encode_decode_roundtrip _ hm⟩

/-- Spec-side failure condition for one record of the decoded array
(spec §decode): `i` missing, `a` missing or not an array, a non-string
argument, or an ID matching no catalog transformer. -/
def recordFails (r : Json) : Prop :=
  objGet r "i" = none ∨
  (∀ as, objGet r "a" ≠ some (.arr as)) ∨
  (∃ as, objGet r "a" = some (.arr as) ∧ as.all jsonIsStr = false) ∨
  (∃ ji as, objGet r "i" = some ji ∧ objGet r "a" = some (.arr as) ∧
    PSTransformers.find? (fun pst => jsonIdMatches ji pst.ID) = none)

/-- Total decode of a well-formed record (used only under the
no-failure hypothesis; the default is never reached there). -/
def decodeRecordVal (r : Json) : PSTransformerWithArguments :=
  match objGet r "i", objGet r "a" with
  | some ji, some (.arr as) =>
    match PSTransformers.find? (fun pst => jsonIdMatches ji pst.ID) with
    | some tf => ⟨tf, as.map jsonArgString⟩
    | none => ⟨splitTransformer, []⟩
  | _, _ => ⟨splitTransformer, []⟩

theorem decodeATLItems_cons_fail (r : Json) (items : List Json) (hr : recordFails r) :
    ∃ e, decodeATLItems (r :: items) = .error e := by
  cases hgi : objGet r "i" with
  | none => exact ⟨_, by unfold decodeATLItems; rw [hgi]⟩
  | some ji =>
    cases hga : objGet r "a" with
    | none => exact ⟨_, by unfold decodeATLItems; rw [hgi, hga]⟩
    | some j =>
      cases j with
      | arr as =>
        cases hall : as.all jsonIsStr with
        | false =>
          exact ⟨_, by
            unfold decodeATLItems
            rw [hgi, hga]
            dsimp only
            rw [if_neg (by simp [hall])]⟩
        | true =>
          cases hf : PSTransformers.find? (fun pst => jsonIdMatches ji pst.ID) with
          | none =>
            exact ⟨_, by
              unfold decodeATLItems
              rw [hgi, hga]
              dsimp only
              rw [if_pos hall, hf]⟩
          | some tf =>
            exfalso
            rcases hr with h1 | h2 | ⟨as2, ha2, hall2⟩ | ⟨ji2, as2, hi2, ha2, hf2⟩
            · rw [hgi] at h1; exact Option.noConfusion h1
            · exact h2 as hga
            · rw [hga] at ha2
              injection ha2 with h
              injection h with h2
              subst h2
              rw [hall] at hall2
              exact Bool.noConfusion hall2
            · rw [hgi] at hi2
              injection hi2 with h
              subst h
              rw [hf] at hf2
              exact Option.noConfusion hf2
      | null => exact ⟨_, by unfold decodeATLItems; rw [hgi, hga]⟩
      | bool b => exact ⟨_, by unfold decodeATLItems; rw [hgi, hga]⟩
      | num raw => exact ⟨_, by unfold decodeATLItems; rw [hgi, hga]⟩
      | str s => exact ⟨_, by unfold decodeATLItems; rw [hgi, hga]⟩
      | obj ms => exact ⟨_, by unfold decodeATLItems; rw [hgi, hga]⟩

theorem decodeATLItems_cons_ok_head (r : Json) (items : List Json) (hr : ¬ recordFails r) :
    decodeATLItems (r :: items) =
      match decodeATLItems items with
      | .ok ps => .ok (decodeRecordVal r :: ps)
      | .error e => .error e := by
  cases hgi : objGet r "i" with
  | none => exact absurd (Or.inl hgi) hr
  | some ji =>
    cases hga : objGet r "a" with
    | none =>
      exact absurd (Or.inr (Or.inl (fun as h => by
        rw [hga] at h; exact Option.noConfusion h))) hr
    | some j =>
      cases j with
      | arr as =>
        cases hall : as.all jsonIsStr with
        | false => exact absurd (Or.inr (Or.inr (Or.inl ⟨as, hga, hall⟩))) hr
        | true =>
          cases hf : PSTransformers.find? (fun pst => jsonIdMatches ji pst.ID) with
          | none => exact absurd (Or.inr (Or.inr (Or.inr ⟨ji, as, hgi, hga, hf⟩))) hr
          | some tf =>
            conv_lhs => unfold decodeATLItems
            rw [hgi, hga]
            dsimp only
            rw [if_pos hall, hf]
            dsimp only
            cases hdec : decodeATLItems items with
            | ok ps =>
              dsimp only
              rw [show decodeRecordVal r = ⟨tf, as.map jsonArgString⟩ from by
                unfold decodeRecordVal
                rw [hgi, hga]
                dsimp only
                rw [hf]]
            | error e => rfl
      | null =>
        exact absurd (Or.inr (Or.inl (fun as h => by
          rw [hga] at h; injection h with h2; exact Json.noConfusion h2))) hr
      | bool b =>
        exact absurd (Or.inr (Or.inl (fun as h => by
          rw [hga] at h; injection h with h2; exact Json.noConfusion h2))) hr
      | num raw =>
        exact absurd (Or.inr (Or.inl (fun as h => by
          rw [hga] at h; injection h with h2; exact Json.noConfusion h2))) hr
      | str s =>
        exact absurd (Or.inr (Or.inl (fun as h => by
          rw [hga] at h; injection h with h2; exact Json.noConfusion h2))) hr
      | obj ms =>
        exact absurd (Or.inr (Or.inl (fun as h => by
          rw [hga] at h; injection h with h2; exact Json.noConfusion h2))) hr

theorem decodeATLItems_error_iff (items : List Json) :
    (∃ e, decodeATLItems items = .error e) ↔ ∃ r ∈ items, recordFails r := by
  induction items with
  | nil => simp [decodeATLItems]
  | cons r items ih =>
    by_cases hr : recordFails r
    · obtain ⟨e, he⟩ := decodeATLItems_cons_fail r items hr
      constructor
      · intro _
        exact ⟨r, List.mem_cons_self _ _, hr⟩
      · intro _
        exact ⟨e, he⟩
    · rw [decodeATLItems_cons_ok_head r items hr]
      cases hdec : decodeATLItems items with
      | ok ps =>
        rw [hdec] at ih
        dsimp only
        constructor
        · rintro ⟨e, he⟩
          exact absurd he (by simp)
        · rintro ⟨r2, hm, hf2⟩
          rcases List.mem_cons.mp hm with h | h
          · subst h; exact absurd hf2 hr
          · obtain ⟨e, he⟩ := ih.mpr ⟨r2, h, hf2⟩
            exact absurd he (by simp)
      | error e =>
        rw [hdec] at ih
        dsimp only
        constructor
        · intro _
          obtain ⟨r2, hm, hf2⟩ := ih.mp ⟨e, rfl⟩
          exact ⟨r2, List.mem_cons_of_mem _ hm, hf2⟩
        · intro _
          exact ⟨e, rfl⟩

theorem decodeATLItems_ok_records (items : List Json) (h : ∀ r ∈ items, ¬ recordFails r) :
    decodeATLItems items = .ok (items.map decodeRecordVal) := by
  induction items with
  | nil => rfl
  | cons r items ih =>
    rw [decodeATLItems_cons_ok_head r items (h r (List.mem_cons_self _ _))]
    rw [ih (fun r2 h2 => h r2 (List.mem_cons_of_mem _ h2))]
    rfl

/-- Spec-side failure condition of the whole decode: syntax error, a
non-array top level, or some failing record. -/
def decodeFailCond (token : String) : Prop :=
  jsonParse token = none ∨
  (∃ j, jsonParse token = some j ∧ ∀ items, j ≠ Json.arr items) ∨
  (∃ items, jsonParse token = some (.arr items) ∧ ∃ r ∈ items, recordFails r)

/-- C5: `decodeATL token` fails with an error — producing no partial
pipeline — exactly when the token is not valid JSON, the top level is
not an array, some record's `i` is missing or its `a` is not an array,
some element of `a` is not a string, or `i` matches no catalog
transformer ID; in all other cases it returns the fully decoded
pipeline (one decoded invocation per record). -/
theorem c5_decode_strict (token : String) :
    ((∃ e, decodeATL token = .error e) ↔ decodeFailCond token) ∧
    (∀ items, jsonParse token = some (.arr items) →
      (∀ r ∈ items, ¬ recordFails r) →
      decodeATL token = .ok (items.map decodeRecordVal)) := by
  constructor
  · unfold decodeATL
    cases hp : jsonParse token with
    | none =>
      exact ⟨fun _ => Or.inl hp, fun _ => ⟨_, rfl⟩⟩
    | some j =>
      cases j with
      | arr items =>
        dsimp only
        constructor
        · intro he
          exact Or.inr (Or.inr ⟨items, hp, (decodeATLItems_error_iff items).mp he⟩)
        · rintro (h1 | ⟨j2, hj2, hne⟩ | ⟨items2, hi2, hfail⟩)
          · rw [hp] at h1
            exact absurd h1 (by simp)
          · rw [hp] at hj2
            injection hj2 with h
            exact absurd rfl (h ▸ hne items)
          · rw [hp] at hi2
            injection hi2 with h
            injection h with h2
            subst h2
            exact (decodeATLItems_error_iff items).mpr hfail
      | null =>
        exact ⟨fun _ => Or.inr (Or.inl ⟨_, hp, fun its h => Json.noConfusion h⟩),
          fun _ => ⟨_, rfl⟩⟩
      | bool b =>
        exact ⟨fun _ => Or.inr (Or.inl ⟨_, hp, fun its h => Json.noConfusion h⟩),
          fun _ => ⟨_, rfl⟩⟩
      | num raw =>
        exact ⟨fun _ => Or.inr (Or.inl ⟨_, hp, fun its h => Json.noConfusion h⟩),
          fun _ => ⟨_, rfl⟩⟩
      | str s =>
        exact ⟨fun _ => Or.inr (Or.inl ⟨_, hp, fun its h => Json.noConfusion h⟩),
          fun _ => ⟨_, rfl⟩⟩
      | obj ms =>
        exact ⟨fun _ => Or.inr (Or.inl ⟨_, hp, fun its h => Json.noConfusion h⟩),
          fun _ => ⟨_, rfl⟩⟩
  · intro items hp hok
    unfold decodeATL
    rw [hp]
    dsimp only
    exact decodeATLItems_ok_records items hok

theorem c5_decode_strict_witness :
    (∃ e, decodeATL "[\x7b\"i\":\"nope\",\"a\":[]\x7d]" = .error e) ∧
      decodeATL "[\x7b\"i\":\"split\",\"a\":[\",\"]\x7d]" =
        .ok [⟨splitTransformer, [","]⟩] := by
  constructor
  · exact (c5_decode_strict "[\x7b\"i\":\"nope\",\"a\":[]\x7d]").1.mpr
      (Or.inr (Or.inr ⟨[.obj [("i", .str "nope"), ("a", .arr [])]], by rfl,
        ⟨.obj [("i", .str "nope"), ("a", .arr [])], List.mem_cons_self _ _,
          Or.inr (Or.inr (Or.inr ⟨.str "nope", [], rfl, rfl, rfl⟩))⟩⟩))
  · have hok : ∀ r ∈ [Json.obj [("i", .str "split"), ("a", .arr [.str ","])]],
        ¬ recordFails r := by
      intro r hr
      have hr2 : r = Json.obj [("i", .str "split"), ("a", .arr [.str ","])] := by
        simpa using hr
      subst hr2
      rintro (h1 | h2 | ⟨as, ha, hall⟩ | ⟨ji, as, hi, ha, hf⟩)
      · rw [show objGet (Json.obj [("i", .str "split"), ("a", .arr [.str ","])]) "i" =
            some (.str "split") from rfl] at h1
        exact Option.noConfusion h1
      · exact h2 [.str ","] rfl
      · rw [show objGet (Json.obj [("i", .str "split"), ("a", .arr [.str ","])]) "a" =
            some (Json.arr [Json.str ","]) from rfl] at ha
        injection ha with h
        injection h with h2
        subst h2
        simp [jsonIsStr] at hall
      · rw [show objGet (Json.obj [("i", .str "split"), ("a", .arr [.str ","])]) "i" =
            some (Json.str "split") from rfl] at hi
        injection hi with h
        subst h
        rw [show PSTransformers.find?
              (fun pst => jsonIdMatches (Json.str "split") pst.ID) =
            some splitTransformer from rfl] at hf
        exact Option.noConfusion hf
    have h := (c5_decode_strict "[\x7b\"i\":\"split\",\"a\":[\",\"]\x7d]").2
      [Json.obj [("i", .str "split"), ("a", .arr [.str ","])]] (by rfl) hok
    exact h
